import Mathlib

/-!
# pkup: chat line parsing, event routing and operator tracking

A shallow embedding of `irc.go`, of the status decode of `quake.go`, of the binary decode
of `reflex.go` and of the dispatch of bot commands in `main.go`.

Go strings are byte sequences, so a string is the list of its bytes (`Str`).
A Go runtime panic (index or slice out of range) is `none`.
The sends on the two channels of a connection are kept in one list, oldest first; blocking
on a full channel is not modelled.
What the code takes from outside the two files (the Unicode case tables behind
`strings.ToLower`, the configured channel, the clock) is the parameter `Env`.
-/

namespace Pkup

/-- A Go string: the list of its bytes. -/
abbrev Str := List Nat

/-- The bytes of an ASCII literal. -/
def str (s : String) : Str := s.toList.map Char.toNat

/-! ## Go built-ins and the `strings` functions the code calls -/

/-- Go `s[lo:hi]`; out of range bounds panic. -/
def slice (s : Str) (lo hi : Nat) : Option Str :=
  if lo ≤ hi ∧ hi ≤ s.length then some ((s.take hi).drop lo) else none

/-- Go `s[lo:]`; panics when `lo > len(s)`. -/
def sliceFrom {α : Type} (s : List α) (lo : Nat) : Option (List α) :=
  if lo ≤ s.length then some (s.drop lo) else none

/-- Whether `sub` occurs in `s` at offset 0. -/
def hasPrefix (s sub : Str) : Bool := sub.isPrefixOf s

/-- Go `strings.Index(s, sub)`: the offset of the first occurrence; `none` is Go's `-1`. -/
def Index : Str → Str → Option Nat
  | [], sub => if sub = [] then some 0 else none
  | c :: t, sub =>
    if hasPrefix (c :: t) sub then some 0
    else match Index t sub with
      | some i => some (i + 1)
      | none => none

/-- Go `strings.SplitN(s, sep, 2)` for a non-empty `sep`. -/
def SplitN2 (s sep : Str) : List Str :=
  match Index s sep with
  | none => [s]
  | some i => [s.take i, s.drop (i + sep.length)]

/-- Go `strings.Split(s, sep)` for a separator `sep` of one byte. -/
def Split (sep : Nat) : Str → List Str
  | [] => [[]]
  | c :: t =>
    if c = sep then [] :: Split sep t
    else match Split sep t with
      | [] => [[c]]
      | h :: r => (c :: h) :: r

/-- Go `strings.Trim(s, cutset)` for a cutset of one byte. -/
def Trim (s : Str) (b : Nat) : Str :=
  ((s.dropWhile (· == b)).reverse.dropWhile (· == b)).reverse

/-- Lower-casing of one ASCII byte. -/
def lowerByte (b : Nat) : Nat := if 65 ≤ b ∧ b ≤ 90 then b + 32 else b

/-- The regular expression `[ ]+` replaced by one space: `spaces.ReplaceAllString(msg, " ")`.
`prev` tells that the byte before was a space. -/
def collapseFrom (prev : Bool) : Str → Str
  | [] => []
  | c :: t =>
    if c = 32 then (if prev then collapseFrom true t else 32 :: collapseFrom true t)
    else c :: collapseFrom false t

/-- The line with every run of spaces replaced by one space. -/
def collapseSpaces (s : Str) : Str := collapseFrom false s

/-- UTF-8 encodings of the runes for which Go's `unicode.IsSpace` holds. -/
def spaceRunes : List Str :=
  [[9], [10], [11], [12], [13], [32], [0xC2, 0x85], [0xC2, 0xA0], [0xE1, 0x9A, 0x80],
   [0xE2, 0x80, 0x80], [0xE2, 0x80, 0x81], [0xE2, 0x80, 0x82], [0xE2, 0x80, 0x83],
   [0xE2, 0x80, 0x84], [0xE2, 0x80, 0x85], [0xE2, 0x80, 0x86], [0xE2, 0x80, 0x87],
   [0xE2, 0x80, 0x88], [0xE2, 0x80, 0x89], [0xE2, 0x80, 0x8A], [0xE2, 0x80, 0xA8],
   [0xE2, 0x80, 0xA9], [0xE2, 0x80, 0xAF], [0xE2, 0x81, 0x9F], [0xE3, 0x80, 0x80]]

/-- Whether the string starts with a white space rune. -/
def startsWithSpace (s : Str) : Bool := spaceRunes.any fun e => e.isPrefixOf s

/-- Whether the string ends with a white space rune. -/
def endsWithSpace (s : Str) : Bool := spaceRunes.any fun e => e.reverse.isPrefixOf s.reverse

/-- Leading white space runes removed; at most `n` of them. -/
def trimLeftSpace : Nat → Str → Str
  | 0, s => s
  | n + 1, s =>
    match spaceRunes.find? fun e => e.isPrefixOf s with
    | some e => trimLeftSpace n (s.drop e.length)
    | none => s

/-- Trailing white space runes removed, on the reversed string; at most `n` of them. -/
def trimRightSpaceRev : Nat → Str → Str
  | 0, r => r
  | n + 1, r =>
    match spaceRunes.find? fun e => e.reverse.isPrefixOf r with
    | some e => trimRightSpaceRev n (r.drop e.length)
    | none => r

/-- Go `strings.TrimSpace(s)`: white space runes removed at both ends. Every removal takes at
least one byte, so `len(s)` rounds are enough. -/
def TrimSpace (s : Str) : Str :=
  let l := trimLeftSpace s.length s
  (trimRightSpaceRev l.length l.reverse).reverse

/-- What the program takes from outside `irc.go`. -/
structure Env where
  /-- `strings.ToLower` on a string that is not pure ASCII (Go's Unicode case tables). -/
  unicodeLower : Str → Str
  /-- The global `channel`, set from the command line. -/
  channel : Str
  /-- The text of `time.Now().Local().String()`. -/
  now : Str

/-- Go `strings.ToLower(s)`: byte-wise on pure ASCII, the Unicode mapping otherwise. -/
def ToLower (e : Env) (s : Str) : Str :=
  if s.all (· < 128) then s.map lowerByte else e.unicodeLower s

/-- The global `version`. -/
def version : Str := str "pkup"

/-! ## `irc.go` -/

/-- The record `Event`. -/
structure Event where
  cmd : Str
  msg : Str
  nick : Str
  user : Str
  host : Str
  src : Str
  args : List Str
  raw : Str
deriving DecidableEq, Repr

/-- One send on a channel of the connection. -/
inductive Send where
  /-- The statement `c.out <- line`. -/
  | out (line : Str)
  /-- The statement `c.Events <- ev`. -/
  | event (ev : Event)
deriving DecidableEq, Repr

/-- The fields of `IRCconn` that `read` and `handle` touch: the sends on the two channels
`out` and `Events`, in the order they were made, and the operator map, as the list of its
keys. -/
structure IRCconn where
  sends : List Send
  operators : List Str
deriving DecidableEq, Repr

/-- What was sent on the channel `out`, oldest first. -/
def IRCconn.out (c : IRCconn) : List Str :=
  c.sends.filterMap fun s => match s with
    | Send.out l => some l
    | Send.event _ => none

/-- What was sent on the channel `Events`, oldest first. -/
def IRCconn.Events (c : IRCconn) : List Event :=
  c.sends.filterMap fun s => match s with
    | Send.out _ => none
    | Send.event ev => some ev

/-- The statement `c.operators[k] = struct{}{}`. -/
def opInsert (ops : List Str) (k : Str) : List Str := if k ∈ ops then ops else k :: ops

/-- The statement `delete(c.operators, k)`. -/
def opDelete (ops : List Str) (k : Str) : List Str := ops.filter (· ≠ k)

/-- The function `splituserstring`: "nick!user@host" to "nick", "user", "host". -/
def splituserstring (s : Str) : Option (Str × Str × Str) :=
  match Index s (str "!"), Index s (str "@") with
  | some i, some j =>
    match slice s 0 i, slice s (i + 1) j, sliceFrom s (j + 1) with
    | some n, some u, some h => some (n, u, h)
    | _, _, _ => none
  | _, _ => some ([], [], [])

/-- The method `isopped`; `none` when `splituserstring` panics. -/
def isopped (ops : List Str) (who _ch : Str) : Option Bool :=
  match splituserstring who with
  | some (n, _, _) => some (decide (n ∈ ops))
  | none => none

/-- In `read`, "Extract full source": the prefix up to the first space becomes `src`. -/
def readSource (ev : Event) (msg : Str) : Option (Event × Str) :=
  match Index msg (str " ") with
  | some i =>
    match slice msg 1 i, sliceFrom msg (i + 1) with
    | some s, some rest => some ({ ev with src := s }, rest)
    | _, _ => none
  | none => some (ev, msg)

/-- In `read`, "Extract nick!user@host": the same three slices as `splituserstring`. -/
def readUser (ev : Event) : Option Event :=
  match Index ev.src (str "!"), Index ev.src (str "@") with
  | some i, some j =>
    match slice ev.src 0 i, slice ev.src (i + 1) j, sliceFrom ev.src (j + 1) with
    | some n, some u, some h => some { ev with nick := n, user := u, host := h }
    | _, _, _ => none
  | _, _ => some ev

/-- In `read`, the split on " :" and on spaces that fills `msg`, `cmd` and `args`. -/
def readCommand (e : Env) (ev : Event) (msg : Str) : Event :=
  let args := SplitN2 msg (str " :")
  let ev := if 1 < args.length then { ev with msg := args.getD 1 [] } else ev
  let args := Split 32 (args.headD [])
  let ev := { ev with cmd := ToLower e (args.headD []) }
  if 1 < args.length then { ev with args := args.drop 1 } else ev

/-- The body of the loop of `read`, up to the call of `handle`: one scanned line to the Event
that is handed to `handle`. `msg[0]` panics on an empty line. -/
def parseLine (e : Env) (line : Str) : Option Event :=
  let msg := TrimSpace (collapseSpaces line)
  let ev : Event := { cmd := [], msg := [], nick := [], user := [], host := [], src := [],
                      args := [], raw := msg }
  match msg.head? with
  | none => none
  | some c0 =>
    if c0 = 58 then
      match readSource ev msg with
      | none => none
      | some (ev1, rest) =>
        match readUser ev1 with
        | none => none
        | some ev2 => some (readCommand e ev2 rest)
    else some (readCommand e ev msg)

/-- The table `num2cmd`: numeric reply to command name. -/
def num2cmd (k : Str) : Option Str :=
  if k = str "001" then some (str "welcome")
  else if k = str "353" then some (str "rpl_namreply")
  else if k = str "366" then some (str "rpl_endofnames")
  else none

/-- One round of the loop of `processnames`, on the token `s`. -/
def namesStep (ops : List Str) (s : Str) : List Str :=
  if s.length < 2 then ops
  else if s.head? = some 64 then opInsert ops (s.drop 1)
  else opDelete ops (if s.head? = some 43 then s.drop 1 else s)

/-- The method `processnames`, on the operator map. -/
def processnames (ops : List Str) (msg : Str) : List Str :=
  (Split 32 msg).foldl namesStep ops

/-- The loop of `processmode`. -/
def modeLoop (ops : List Str) : List Str → List Str
  | a :: b :: rest =>
    modeLoop (if a = str "+o" then opInsert ops b
              else if a = str "-o" then opDelete ops b else ops) rest
  | _ => ops

/-- The method `processmode`; `args[1:]` panics on an empty `args`. -/
def processmode (ops : List Str) (args : List Str) : Option (List Str) :=
  match sliceFrom args 1 with
  | none => none
  | some rest => some (modeLoop ops rest)

/-- The method `processnick`. -/
def processnick (ops : List Str) (who to_ : Str) : List Str :=
  if who ∈ ops then opInsert (opDelete ops who) to_ else ops

/-- The method `processquit`. -/
def processquit (ops : List Str) (who : Str) : List Str := opDelete ops who

/-- First statement of `handle`: a CTCP query in a private message becomes the command. -/
def ctcpStep (e : Env) (ev : Event) : Option Event :=
  if ev.cmd = str "privmsg" ∧ ev.msg ≠ [] ∧ ev.msg.head? = some 1 then
    let cmd := ToLower e (Trim ev.msg 1)
    match slice cmd 0 4 with
    | none => none
    | some p => some { ev with cmd := if p = str "ping" then str "ctcp-ping" else cmd }
  else some ev

/-- Second statement of `handle`: the lookup of `ev.cmd[0:3]` in `num2cmd`. -/
def numStep (ev : Event) : Option Event :=
  match slice ev.cmd 0 3 with
  | none => none
  | some k =>
    match num2cmd k with
    | some cmd => some { ev with cmd := cmd }
    | none => some ev

/-- The ten tags that the switch of `handle` treats without forwarding the Event. -/
def internalTags : List Str :=
  [str "rpl_namreply", str "mode", str "nick", str "part", str "quit", str "ping",
   str "version", str "time", str "ctcp-ping", str "finger"]

/-- The connection after one more send. -/
def IRCconn.send (c : IRCconn) (s : Send) : IRCconn := { c with sends := c.sends ++ [s] }

/-- The switch of `handle`. -/
def route (e : Env) (c : IRCconn) (ev : Event) : Option IRCconn :=
  if ev.cmd = str "welcome" then
    some ((c.send (Send.out (str "NAMES " ++ e.channel))).send (Send.event ev))
  else if ev.cmd = str "rpl_namreply" then
    some { c with operators := processnames c.operators ev.msg }
  else if ev.cmd = str "mode" then
    (processmode c.operators ev.args).map fun ops => { c with operators := ops }
  else if ev.cmd = str "nick" then
    some { c with operators := processnick c.operators ev.nick ev.msg }
  else if ev.cmd = str "part" ∨ ev.cmd = str "quit" then
    some { c with operators := processquit c.operators ev.nick }
  else if ev.cmd = str "ping" then
    some (c.send (Send.out (str "PONG :" ++ ev.msg)))
  else if ev.cmd = str "version" then
    some (c.send (Send.out
      (str "NOTICE " ++ ev.nick ++ str " :" ++ [1] ++ str "VERSION " ++ version ++ [1])))
  else if ev.cmd = str "time" then
    some (c.send (Send.out
      (str "NOTICE " ++ ev.nick ++ str " :" ++ [1] ++ str "TIME " ++ e.now ++ [1])))
  else if ev.cmd = str "ctcp-ping" then
    some (c.send (Send.out (str "NOTICE " ++ ev.nick ++ str " :" ++ ev.msg)))
  else if ev.cmd = str "finger" then
    some (c.send (Send.out (str "NOTICE " ++ ev.nick ++ str " :" ++ [1] ++ str "l-lewd!" ++ [1])))
  else
    some (c.send (Send.event ev))

/-- The Event as the switch of `handle` sees it, after the two rewriting statements. -/
def normalise (e : Env) (ev : Event) : Option Event :=
  match ctcpStep e ev with
  | none => none
  | some ev1 => numStep ev1

/-- The method `handle`. -/
def handle (e : Env) (c : IRCconn) (ev : Event) : Option IRCconn :=
  match normalise e ev with
  | none => none
  | some ev2 => route e c ev2

/-- One round of the loop of `read`: parse the line, then `handle` the Event. -/
def readLine (e : Env) (c : IRCconn) (line : Str) : Option IRCconn :=
  match parseLine e line with
  | none => none
  | some ev => handle e c ev

/-- An environment for concrete runs. -/
def env0 : Env := { unicodeLower := id, channel := str "#pkup", now := str "now" }

/-- A fresh connection: nothing sent, no operator. -/
def conn0 : IRCconn := { sends := [], operators := [] }

/-- The Event that `read` makes of the line ":srv 001 me :Welcome". -/
def welcomeReply : Event :=
  { cmd := str "001", msg := str "Welcome", nick := [], user := [], host := [],
    src := str "srv", args := [str "me"], raw := str ":srv 001 me :Welcome" }

/-- The Event that `read` makes of the CTCP query "\x01PING 12\x01" that n sends to #chan. -/
def pingQuery : Event :=
  { cmd := str "privmsg", msg := [1] ++ str "PING 12" ++ [1], nick := str "n", user := str "u",
    host := str "h", src := str "n!u@h", args := [str "#chan"],
    raw := str ":n!u@h PRIVMSG #chan :" ++ ([1] ++ str "PING 12" ++ [1]) }

/-! ## `quake.go` -/

/-- The record `Client` of `main.go`. -/
structure Client where
  name : Str
  score : Int
deriving DecidableEq, Repr

/-- The fields of `QServer` that the decode in `query` touches; the map `kv` is an association
list with one entry for each key. -/
structure QServer where
  kv : List (Str × Str)
  qclients : List Client
  qonline : Bool
deriving DecidableEq, Repr

/-- The statement `srv.kv[k] = v`. -/
def kvSet (kv : List (Str × Str)) (k v : Str) : List (Str × Str) :=
  (k, v) :: kv.filter fun p => p.1 ≠ k

/-- The expression `srv.kv[k]`: the empty string when the key is missing. -/
def kvGet (kv : List (Str × Str)) (k : Str) : Str := (kv.lookup k).getD []

/-- The byte loop of Go `strconv.ParseUint(s, 10, 64)` from the value `n` on, and the value
it returns next to its error: a byte that is not a decimal digit ends the loop with a syntax
error (`none`; the value is then 0); a digit at which `n * 10` or `n * 10 + d` no longer
fits 64 bits ends it with a range error and the value 18446744073709551615, and the bytes
after that digit are not read. 1844674407370955162 is the cutoff `maxUint64/10 + 1`. -/
def parseUint (n : Nat) : Str → Option Nat
  | [] => some n
  | c :: t =>
    if 48 ≤ c ∧ c ≤ 57 then
      if 1844674407370955162 ≤ n then some 18446744073709551615
      else if 18446744073709551615 < n * 10 + (c - 48) then some 18446744073709551615
      else parseUint (n * 10 + (c - 48)) t
    else none

/-- The value that Go `strconv.Atoi(s)` returns next to its error, for a 64-bit `int`
(`ParseInt(s, 10, 0)`): one leading sign is taken off and the rest goes to `ParseUint`; the
value is 0 on a syntax error (the empty string and a bare sign included), and otherwise the
unsigned value with its sign, or the nearest bound of the `int` when that does not fit. -/
def Atoi (s : Str) : Int :=
  let neg := s.head? = some 45
  let body := if s.head? = some 45 ∨ s.head? = some 43 then s.drop 1 else s
  if body = [] then 0
  else match parseUint 0 body with
    | none => 0
    | some un =>
      if neg then (if 2 ^ 63 < un then -(2 ^ 63) else -(un : Int))
      else (if 2 ^ 63 ≤ un then 2 ^ 63 - 1 else (un : Int))

/-- The bytes `want` that a status response starts with. -/
def want : Str := [255, 255, 255, 255] ++ str "statusResponse\n"

/-- The loop over `kvs` in `query`: at every index but the last, `kvs[i]` lower-cased is
stored with `kvs[i+1]`. -/
def kvLoop (e : Env) (kv : List (Str × Str)) : List Str → List (Str × Str)
  | a :: b :: rest => kvLoop e (kvSet kv (ToLower e a) b) (b :: rest)
  | _ => kv

/-- The loop over `data[1:]` in `query`. -/
def clientLoop (acc : List Client) : List Str → List Client
  | [] => acc
  | s :: rest =>
    let ss := Split 32 s
    if ss.length < 3 then clientLoop acc rest
    else clientLoop (acc ++ [{ name := Trim (ss.getD 2 []) 34, score := Atoi (ss.headD []) }]) rest

/-- The error `errors.New("bad response")`. -/
inductive QueryError where
  | badResponse
deriving DecidableEq, Repr

/-- The method `QServer.query` from the bytes `r[:n]` that were read: the server afterwards
and the returned error. The network calls before the decode are not modelled. -/
def QServer.query (e : Env) (srv : QServer) (r : Str) : QServer × Option QueryError :=
  let srv := { srv with qonline := false }
  if r.length < want.length ∨ r.take want.length ≠ want then (srv, some QueryError.badResponse)
  else
    let data := Split 10 (r.drop want.length)
    if data.length < 1 then (srv, some QueryError.badResponse)
    else
      let kvs := Split 92 (data.headD [])
      let srv := { srv with kv := kvLoop e srv.kv kvs }
      if data.length < 2 then (srv, none)
      else
        let srv := { srv with qclients := clientLoop [] (data.drop 1) }
        ({ srv with qonline := true }, none)

/-- The method `QServer.mapname`. -/
def QServer.mapname (srv : QServer) : Str := kvGet srv.kv (str "mapname")

/-- The method `QServer.maxclients`. -/
def QServer.maxclients (srv : QServer) : Int := Atoi (kvGet srv.kv (str "sv_maxclients"))

/-- A server before its first query. -/
def qserver0 : QServer := { kv := [], qclients := [], qonline := false }

/-! ## `reflex.go` -/

/-- The error values of `reflex.go`. -/
inductive ReflexError where
  /-- The variable `ErrShort`, "unexpected end of data". -/
  | ErrShort
  /-- The text "short info response" (`ErrShortInfo`, and the error made in `query`). -/
  | ErrShortInfo
  /-- The variable `ErrShortExtra`, "short extra info data". -/
  | ErrShortExtra
  /-- The variable `ErrShortPlayer`, "short player response". -/
  | ErrShortPlayer
  /-- The variable `ErrBad`, "bad response". -/
  | ErrBad
  /-- The error "unpack: bad format string or args". -/
  | badFormat
  /-- The errors "unpack: expected *T" of a pointer of another type. -/
  | expected
  /-- The error "unpack: short extra data". -/
  | shortExtraData
deriving DecidableEq, Repr

/-- What an output pointer of `unpack` points to: the type and the value held. A `float32`
is held as its 32 bits. -/
inductive Arg where
  | string (s : Str)
  | byte (b : Nat)
  | int16 (n : Int)
  | int32 (n : Int)
  | uint64 (n : Nat)
  | float32 (bits : Nat)
deriving DecidableEq, Repr

/-- The string held, for a `*string`. -/
def Arg.str : Arg → Str
  | Arg.string s => s
  | _ => []

/-- The number held, for a pointer to a number. -/
def Arg.int : Arg → Int
  | Arg.string _ => 0
  | Arg.byte b => b
  | Arg.int16 n => n
  | Arg.int32 n => n
  | Arg.uint64 n => n
  | Arg.float32 bits => bits

/-- The value of the low `w` bits of `n` read as a signed integer in two's complement. -/
def asSigned (w : Nat) (n : Nat) : Int :=
  if n % 2 ^ w < 2 ^ (w - 1) then ((n % 2 ^ w : Nat) : Int) else ((n % 2 ^ w : Nat) : Int) - 2 ^ w

/-- Go `string(c)` for a byte `c`: the UTF-8 encoding of the code point `c`. -/
def runeString (c : Nat) : Str := if c < 128 then [c] else [192 + c / 64, 128 + c % 64]

/-- The string built by `*s += string(b[k])` over the bytes given. -/
def decodeBytes : Str → Str
  | [] => []
  | c :: t => runeString c ++ decodeBytes t

/-- One round of the loop of `unpack`: the case of the switch for the format letter `c`,
on the buffer `b` and the pointer `x`. The result is the buffer, what the pointer holds and
the error returned, if any; `none` is a panic. -/
def unpackField (c : Nat) (b : Str) (x : Arg) : Option (Str × Arg × Option ReflexError) :=
  if c = 115 then
    match x with
    | Arg.string _ =>
      if b.length < 1 then some (b, Arg.string [], some ReflexError.ErrShort)
      else
        match b[(b.takeWhile fun y => y != 0).length]? with
        | none => none
        | some z =>
          if z ≠ 0 then
            some (b, Arg.string (decodeBytes (b.takeWhile fun y => y != 0)),
              some ReflexError.ErrShort)
          else
            some (b.drop ((b.takeWhile fun y => y != 0).length + 1),
              Arg.string (decodeBytes (b.takeWhile fun y => y != 0)), none)
    | _ => some (b, x, some ReflexError.expected)
  else if c = 98 then
    match x with
    | Arg.byte _ =>
      if b.length < 1 then some (b, x, some ReflexError.ErrShort)
      else some (b.drop 1, Arg.byte (b.getD 0 0), none)
    | _ => some (b, x, some ReflexError.expected)
  else if c = 83 then
    match x with
    | Arg.int16 _ =>
      if b.length < 2 then some (b, x, some ReflexError.ErrShort)
      else some (b.drop 2, Arg.int16 (asSigned 16 (b.getD 0 0 ||| (b.getD 1 0 <<< 8))), none)
    | _ => some (b, x, some ReflexError.expected)
  else if c = 108 then
    match x with
    | Arg.int32 _ =>
      if b.length < 4 then some (b, x, some ReflexError.ErrShort)
      else some (b.drop 4, Arg.int32 (asSigned 32 (b.getD 0 0 ||| (b.getD 1 0 <<< 8) |||
        (b.getD 2 0 <<< 16) ||| (b.getD 3 0 <<< 24))), none)
    | _ => some (b, x, some ReflexError.expected)
  else if c = 76 then
    match x with
    | Arg.uint64 _ =>
      if b.length < 8 then some (b, x, some ReflexError.ErrShort)
      else some (b.drop 8, Arg.uint64 ((b.getD 0 0 ||| (b.getD 1 0 <<< 8) |||
        (b.getD 2 0 <<< 16) ||| (b.getD 3 0 <<< 24) ||| (b.getD 4 0 <<< 32) |||
        (b.getD 5 0 <<< 40) ||| (b.getD 6 0 <<< 48) ||| (b.getD 7 0 <<< 56)) % 2 ^ 64), none)
    | _ => some (b, x, some ReflexError.expected)
  else if c = 102 then
    match x with
    | Arg.float32 _ =>
      if b.length < 4 then some (b, x, some ReflexError.ErrShort)
      else some (b.drop 4, Arg.float32 ((b.getD 0 0 ||| (b.getD 1 0 <<< 8) |||
        (b.getD 2 0 <<< 16) ||| (b.getD 3 0 <<< 24)) % 2 ^ 32), none)
    | _ => some (b, x, some ReflexError.expected)
  else some (b, x, none)

/-- The loop of `unpack` over the format letters and the pointers. -/
def unpackLoop : Str → Str → List Arg → Option (Str × List Arg × Option ReflexError)
  | c :: fmt, b, x :: a =>
    match unpackField c b x with
    | none => none
    | some (b1, x1, some err) => some (b1, x1 :: a, some err)
    | some (b1, x1, none) =>
      match unpackLoop fmt b1 a with
      | none => none
      | some (b2, a2, err) => some (b2, x1 :: a2, err)
  | _, b, a => some (b, a, none)

/-- The function `unpack`: the buffer that is left, what the pointers hold afterwards and
the error returned, if any; `none` is a panic. -/
def unpack (format : Str) (b : Str) (a : List Arg) :
    Option (Str × List Arg × Option ReflexError) :=
  if format.length ≠ a.length then some (b, a, some ReflexError.badFormat)
  else unpackLoop format b a

/-- Go `strconv.Itoa(i)`. -/
def Itoa (i : Int) : Str :=
  if i < 0 then 45 :: str (Nat.repr i.natAbs) else str (Nat.repr i.toNat)

/-- The function `unpackEDF`: the buffer that is left, what `port` and `tv` hold afterwards
and the error returned, if any; `none` is a panic. -/
def unpackEDF (b : Str) (port : Int) (tv : Str) :
    Option (Str × Int × Str × Option ReflexError) :=
  if b.length < 1 then some (b, port, tv, some ReflexError.shortExtraData)
  else
    match (if b.getD 0 0 &&& 0x80 ≠ 0 then unpack (str "S") (b.drop 1) [Arg.int16 port]
           else some (b.drop 1, [Arg.int16 port], none)) with
    | none => none
    | some (b2, a2, some err) => some (b2, (a2.getD 0 (Arg.int16 port)).int, tv, some err)
    | some (b2, a2, none) =>
      if b.getD 0 0 &&& 0x10 ≠ 0 ∧ b2.length < 8 then
        some (b2, (a2.getD 0 (Arg.int16 port)).int, tv, some ReflexError.ErrShortExtra)
      else if b.getD 0 0 &&& 0x40 ≠ 0 then
        match unpack (str "Ss") (if b.getD 0 0 &&& 0x10 ≠ 0 then b2.drop 8 else b2)
            [Arg.int16 0, Arg.string []] with
        | none => none
        | some (b4, _, some err) => some (b4, (a2.getD 0 (Arg.int16 port)).int, tv, some err)
        | some (b4, a4, none) =>
          some (b4, (a2.getD 0 (Arg.int16 port)).int,
            (a4.getD 1 (Arg.string [])).str ++ str ":" ++ Itoa (a4.getD 0 (Arg.int16 0)).int, none)
      else
        some (if b.getD 0 0 &&& 0x10 ≠ 0 then b2.drop 8 else b2,
          (a2.getD 0 (Arg.int16 port)).int, tv, none)

/-- The loop of `unpackclients`: `done` are the clients filled so far, `m` the rounds left;
on an error the clients not reached keep their zero value. -/
def unpackclientsLoop (b : Str) (done : List Client) : Nat →
    Option (List Client × Option ReflexError)
  | 0 => some (done, none)
  | m + 1 =>
    match unpack (str "bslf") b [Arg.byte 0, Arg.string [], Arg.int32 0, Arg.float32 0] with
    | none => none
    | some (_, a, some err) =>
      some (done ++ Client.mk (a.getD 1 (Arg.string [])).str 0 ::
        List.replicate m (Client.mk [] 0), some err)
    | some (b1, a, none) =>
      unpackclientsLoop b1
        (done ++ [Client.mk (a.getD 1 (Arg.string [])).str (a.getD 2 (Arg.int32 0)).int]) m

/-- The function `unpackclients`. -/
def unpackclients (b : Str) : Option (List Client × Option ReflexError) :=
  if b.length < 6 then some ([], some ReflexError.ErrShortPlayer)
  else if b.getD 4 0 ≠ 0x44 then some ([], some ReflexError.ErrBad)
  else unpackclientsLoop (b.drop 6) [] (b.getD 5 0)

/-- The fields of `ReflexServer` that `query` writes. -/
structure ReflexServer where
  rport : Str
  rhostname : Str
  rmapname : Str
  folder : Str
  game : Str
  id : Int
  rmaxclients : Nat
  nclients : Nat
  rclients : List Client
  ronline : Bool
  tv : Str
deriving DecidableEq, Repr

/-- The length of the receive buffer `r` of `query`. -/
def bufLen : Nat := 8192

/-- The pointers that `query` hands to `unpack` for the info response. -/
def infoArgs (srv : ReflexServer) : List Arg :=
  [Arg.string srv.rhostname, Arg.string srv.rmapname, Arg.string srv.folder,
   Arg.string srv.game, Arg.int16 srv.id, Arg.byte srv.nclients, Arg.byte srv.rmaxclients,
   Arg.byte 0, Arg.byte 0, Arg.byte 0, Arg.byte 0, Arg.byte 0, Arg.string []]

/-- The server after `unpack` has written through the pointers of `infoArgs`. -/
def storeInfo (srv : ReflexServer) (a : List Arg) : ReflexServer :=
  { srv with
    rhostname := (a.getD 0 (Arg.string [])).str
    rmapname := (a.getD 1 (Arg.string [])).str
    folder := (a.getD 2 (Arg.string [])).str
    game := (a.getD 3 (Arg.string [])).str
    id := (a.getD 4 (Arg.int16 0)).int
    nclients := (a.getD 5 (Arg.byte 0)).int.toNat
    rmaxclients := (a.getD 6 (Arg.byte 0)).int.toNat }

/-- The info phase of `ReflexServer.query`, from the datagram `info` that `c.Read(r)` reads
into the buffer: `n` is its length, at most `bufLen`. The test before the decode is on
`len(r)`, the length of the buffer; the slice `r[6:n]` panics when `n < 6`. The error of
`unpackEDF` is not tested. `none` is a panic. -/
def infoPhase (srv : ReflexServer) (info : Str) : Option (ReflexServer × Option ReflexError) :=
  let srv0 := { srv with ronline := false }
  if bufLen ≤ 6 then some (srv0, some ReflexError.ErrShortInfo)
  else if (info.take bufLen).length < 6 then none
  else
    match unpack (str "ssssSbbbbbbbs") ((info.take bufLen).drop 6) (infoArgs srv0) with
    | none => none
    | some (_, a, some err) => some (storeInfo srv0 a, some err)
    | some (r1, a, none) =>
      match unpackEDF r1 0 (storeInfo srv0 a).tv with
      | none => none
      | some (_, port, tv, _) =>
        some ({ storeInfo srv0 a with tv := tv, rport := Itoa port, ronline := true }, none)

/-- The method `ReflexServer.query` from the three datagrams that its reads receive: the
info response, the challenge response and the player response. The dial and the writes are
not modelled. `none` is a panic. -/
def ReflexServer.query (srv : ReflexServer) (info chal players : Str) :
    Option (ReflexServer × Option ReflexError) :=
  match infoPhase srv info with
  | none => none
  | some (srv1, some err) => some (srv1, some err)
  | some (srv1, none) =>
    if (chal.take bufLen).length < 9 then some (srv1, some ReflexError.ErrShort)
    else
      match unpackclients (players.take bufLen) with
      | none => none
      | some (cs, err) => some ({ srv1 with rclients := cs }, err)

/-- The method `ReflexServer.port`. -/
def ReflexServer.port (srv : ReflexServer) : Str := srv.rport

/-- A Reflex server before its first query. -/
def rserver0 : ReflexServer :=
  { rport := [], rhostname := [], rmapname := [], folder := [], game := [], id := 0,
    rmaxclients := 0, nclients := 0, rclients := [], ronline := false, tv := [] }

/-- An info response up to its extra data: the six bytes that are skipped, the strings
"srv", "map", "dir" and "Reflex", the id 0x0190, seven single bytes and the version "1". -/
def infoHead : Str :=
  [255, 255, 255, 255, 73, 17] ++ str "srv" ++ [0] ++ str "map" ++ [0] ++ str "dir" ++ [0] ++
  str "Reflex" ++ [0] ++ [0x90, 0x01] ++ [3, 8, 0, 100, 108, 0, 1] ++ str "1" ++ [0]

/-- A player response with the two records of Bob, score bytes FF FF FF FF, and Al, score
bytes 0A 00 00 00, and one more byte after them. -/
def playersReply : Str :=
  [255, 255, 255, 255, 0x44, 2] ++ (0 :: str "Bob" ++ [0, 255, 255, 255, 255, 0, 0, 128, 63]) ++
  (1 :: str "Al" ++ [0, 10, 0, 0, 0, 0, 0, 0, 0]) ++ [9]

/-! ## `main.go`: the dispatch of bot commands -/

/-- The colour code `Violet` of `irc.go`. -/
def Violet : Str := 3 :: str "13"

/-- The constant `ErrPermission`. -/
def ErrPermission : Str := str "only ops may use that command"

/-- The record `Botfn`; the command function is named, what it does is outside the model. -/
structure Botfn where
  fn : Str
  op : Bool
  save : Bool
deriving DecidableEq, Repr

/-- The entries of the map `botcmds`. -/
def botcmdsTable : List (Str × Botfn) :=
  [(str "add", ⟨str "add", false, false⟩),
   (str "addserver", ⟨str "addserver", true, true⟩),
   (str "delmode", ⟨str "delmode", true, true⟩),
   (str "delserver", ⟨str "delserver", true, true⟩),
   (str "expire", ⟨str "setexpire", false, false⟩),
   (str "help", ⟨str "help", false, false⟩),
   (str "lastgame", ⟨str "showlastgame", false, false⟩),
   (str "list", ⟨str "listservers", false, false⟩),
   (str "mode", ⟨str "addmode", true, true⟩),
   (str "modes", ⟨str "listmodes", false, false⟩),
   (str "month", ⟨str "top10month", false, false⟩),
   (str "motd", ⟨str "setmotd", true, true⟩),
   (str "mumble", ⟨str "querymumble", false, false⟩),
   (str "promote", ⟨str "promote", false, false⟩),
   (str "q", ⟨str "serverinfo", false, false⟩),
   (str "remove", ⟨str "remove", false, false⟩),
   (str "setmumble", ⟨str "setmumble", true, true⟩),
   (str "setts", ⟨str "setts", true, true⟩),
   (str "setvoip", ⟨str "setvoip", true, true⟩),
   (str "top", ⟨str "topmost", false, false⟩),
   (str "top10", ⟨str "top10players", false, false⟩),
   (str "top25", ⟨str "top25players", false, false⟩),
   (str "ts", ⟨str "queryts", false, false⟩),
   (str "version", ⟨str "showversion", false, false⟩),
   (str "voip", ⟨str "queryvoip", false, false⟩),
   (str "week", ⟨str "top10week", false, false⟩),
   (str "who", ⟨str "listplayers", false, false⟩)]

/-- The lookup `botcmds[cl]`. -/
def botcmds (cl : Str) : Option Botfn := botcmdsTable.lookup cl

/-- The function `sayusage`: the line it puts on the channel out; `none` when
`splituserstring` panics. -/
def sayusage (_target who what : Str) : Option Str :=
  match splituserstring who with
  | none => none
  | some (n, _, _) => some (str "NOTICE " ++ n ++ str " :" ++ (Violet ++ what))

/-- What the case "privmsg" of the loop of `main` does with an Event. -/
inductive Outcome where
  /-- The `break` for a text that is no command, or no command of the table. -/
  | skipped
  /-- The permission error: the line that `sayusage` sends, and no call of the command. -/
  | denied (notice : Str)
  /-- The call `botfn.fn(ev.args[0], ev.src, cmd[1:]...)`, with the flag `save` of the
  command. -/
  | ran (fn : Str) (target : Str) (who : Str) (args : List Str) (save : Bool)
deriving DecidableEq, Repr

/-- The case "privmsg" of the loop of `main`, for the value `initial` of that global and the
operator map `ops` of the connection. `ev.msg[0]` panics on an empty text and `ev.args[0]`
on an Event without parameter. -/
def dispatch (e : Env) (initial : Bool) (ops : List Str) (ev : Event) : Option Outcome :=
  match ev.msg.head? with
  | none => none
  | some c0 =>
    if c0 ≠ 33 then some Outcome.skipped
    else
      match botcmds (ToLower e ((Split 32 (ev.msg.drop 1)).headD [])) with
      | none => some Outcome.skipped
      | some botfn =>
        match ev.args.head? with
        | none => none
        | some a0 =>
          if botfn.op = true ∧ initial = false then
            match isopped ops a0 ev.src with
            | none => none
            | some false =>
              match sayusage a0 ev.src ErrPermission with
              | none => none
              | some line => some (Outcome.denied line)
            | some true =>
              some (Outcome.ran botfn.fn a0 ev.src ((Split 32 (ev.msg.drop 1)).drop 1) botfn.save)
          else
            some (Outcome.ran botfn.fn a0 ev.src ((Split 32 (ev.msg.drop 1)).drop 1) botfn.save)

/-- The Event that `read` makes of the line ":alice!u@h PRIVMSG #chan :!motd hello". -/
def motdCommand : Event :=
  { cmd := str "privmsg", msg := str "!motd hello", nick := str "alice", user := str "u",
    host := str "h", src := str "alice!u@h", args := [str "#chan"],
    raw := str ":alice!u@h PRIVMSG #chan :!motd hello" }

/-! ## Definitions that follow the words of the specification -/

/-- Spec: what one mode pair (flag, nick) does to the membership: "+o" inserts the nick, "-o"
removes it, any other flag changes nothing. -/
def specApplyMode (ops : List Str) (p : Str × Str) : List Str :=
  if p.1 = str "+o" then opInsert ops p.2
  else if p.1 = str "-o" then opDelete ops p.2
  else ops

/-- The tokens flag, nick, flag, nick, ... of a list of mode pairs. -/
def flattenPairs : List (Str × Str) → List Str
  | [] => []
  | p :: rest => p.1 :: p.2 :: flattenPairs rest

/-- Spec: the nick that a token of a names reply names: the token without its '@' or '+'
prefix. -/
def specNameOf (t : Str) : Str :=
  if t.head? = some 64 ∨ t.head? = some 43 then t.drop 1 else t

/-- The tokens written with one space between them. -/
def unwords : List Str → Str
  | [] => []
  | [t] => t
  | t :: rest => t ++ 32 :: unwords rest

/-- Spec: the tag of a CTCP query from its stripped and lower-cased content: "ctcp-ping" when
the content begins with "ping", the content otherwise. -/
def specCtcpTag (content : Str) : Str :=
  if content.take 4 = str "ping" then str "ctcp-ping" else content

/-- What the loop over `kvs` leaves under the key `k`: the token after the last token, the
final one apart, whose lower-cased form is `k`; `none` when there is no such token. -/
def storedAfter (e : Env) : List Str → Str → Option Str
  | a :: b :: rest, k =>
    match storedAfter e (b :: rest) k with
    | some v => some v
    | none => if ToLower e a = k then some b else none
  | _, _ => none

/-- The tokens written with one space before each of them. -/
def spaced : List Str → Str
  | [] => []
  | a :: rest => 32 :: a ++ spaced rest

/-- Spec: the chat line ":" src " " command {" " arg} " :" trailing. -/
def chatLine (src command : Str) (args : List Str) (trailing : Str) : Str :=
  58 :: src ++ 32 :: command ++ spaced args ++ 32 :: 58 :: trailing

/-- Spec: the value of a run of decimal digits, most significant first. -/
def specDigitsValue (ds : Str) : Nat := ds.foldl (fun acc c => acc * 10 + (c - 48)) 0

/-- Spec: the integer that a token writes in decimal, with an optional sign before one or
more digits; `none` when the token is not an integer. -/
def specDecimal (tok : Str) : Option Int :=
  let body := if tok.head? = some 45 ∨ tok.head? = some 43 then tok.drop 1 else tok
  if body ≠ [] ∧ body.all (fun c => decide (48 ≤ c ∧ c ≤ 57)) = true then
    some (if tok.head? = some 45 then -(specDigitsValue body : Int) else (specDigitsValue body : Int))
  else none

/-- Spec: the value of the run of digits that a token starts with after its optional
sign. -/
def specLeadingValue (tok : Str) : Nat :=
  specDigitsValue
    ((if tok.head? = some 45 ∨ tok.head? = some 43 then tok.drop 1 else tok).takeWhile
      (fun c => decide (48 ≤ c ∧ c ≤ 57)))

/-- Spec: the score of a player line from its token 0: the integer the token writes when it
is in the range of the 64-bit `int`, and the nearest bound of that range when the integer is
outside it; for a token that is not an integer, that same bound (by the sign of the token)
when the digits it starts with after the optional sign already write a value above
18446744073709551615, and 0 otherwise. -/
def specScore (tok : Str) : Int :=
  match specDecimal tok with
  | none =>
    if 18446744073709551615 < specLeadingValue tok then
      (if tok.head? = some 45 then -9223372036854775808 else 9223372036854775807)
    else 0
  | some v =>
    if v < -9223372036854775808 then -9223372036854775808
    else if 9223372036854775808 ≤ v then 9223372036854775807
    else v

/-- Spec: the ClientInfo of a player line: none for a line of fewer than three
space-separated tokens, else the score of token 0 and token 2 without the double quotes
around it. -/
def specClient (line : Str) : Option Client :=
  if 3 ≤ (Split 32 line).length then
    some { name := Trim ((Split 32 line).getD 2 []) 34, score := specScore ((Split 32 line).headD []) }
  else none

/-- Spec: the declared width of a field with the format letter `c` at the head of the
buffer `b`: 1 byte for b, 2 for S, 4 for l and f, 8 for L, and for s the bytes of the string
up to the first zero byte plus that terminator. -/
def specWidth (c : Nat) (b : Str) : Nat :=
  if c = 115 then (b.takeWhile fun y => y != 0).length + 1
  else if c = 98 then 1
  else if c = 83 then 2
  else if c = 108 ∨ c = 102 then 4
  else if c = 76 then 8
  else 0

/-- Spec: the sum of the declared widths of the fields of a format, in format order, on the
buffer `b`. -/
def specConsumed : Str → Str → Nat
  | [], _ => 0
  | c :: fmt, b => specWidth c b + specConsumed fmt (b.drop (specWidth c b))

/-- Spec: one record of a player response: an index byte, the name, the four bytes of the
score and the four bytes of the duration. -/
structure PlayerRecord where
  idx : Nat
  name : Str
  s0 : Nat
  s1 : Nat
  s2 : Nat
  s3 : Nat
  d0 : Nat
  d1 : Nat
  d2 : Nat
  d3 : Nat
deriving DecidableEq, Repr

/-- Spec: the bytes of a record on the wire; the name is followed by a zero byte. -/
def PlayerRecord.encode (r : PlayerRecord) : Str :=
  r.idx :: r.name ++ 0 :: [r.s0, r.s1, r.s2, r.s3, r.d0, r.d1, r.d2, r.d3]

/-- Spec: the bytes of the records of a player response, in order. -/
def encodeRecords : List PlayerRecord → Str
  | [] => []
  | r :: rs => r.encode ++ encodeRecords rs

/-- Spec: a record whose name is ASCII without zero byte and whose score is made of bytes. -/
def PlayerRecord.wellFormed (r : PlayerRecord) : Prop :=
  (∀ c ∈ r.name, 1 ≤ c ∧ c < 128) ∧ r.s0 < 256 ∧ r.s1 < 256 ∧ r.s2 < 256 ∧ r.s3 < 256

/-- Spec: the signed two's-complement 32-bit value of four bytes, least significant
first. -/
def specInt32LE (s0 s1 s2 s3 : Nat) : Int :=
  if s0 + s1 * 256 + s2 * 65536 + s3 * 16777216 < 2147483648 then
    ((s0 + s1 * 256 + s2 * 65536 + s3 * 16777216 : Nat) : Int)
  else ((s0 + s1 * 256 + s2 * 65536 + s3 * 16777216 : Nat) : Int) - 4294967296

/-- Spec: the ClientInfo of a record. -/
def PlayerRecord.client (r : PlayerRecord) : Client :=
  Client.mk r.name (specInt32LE r.s0 r.s1 r.s2 r.s3)

/-- The two records of `playersReply`. -/
def playersRecords : List PlayerRecord :=
  [{ idx := 0, name := str "Bob", s0 := 255, s1 := 255, s2 := 255, s3 := 255,
     d0 := 0, d1 := 0, d2 := 128, d3 := 63 },
   { idx := 1, name := str "Al", s0 := 10, s1 := 0, s2 := 0, s3 := 0,
     d0 := 0, d1 := 0, d2 := 0, d3 := 0 }]

/-! ## Theorems -/

/-! ### Lemmas on the operator map, the sends and the string functions -/

theorem mem_opInsert (ops : List Str) (k x : Str) : x ∈ opInsert ops k ↔ x = k ∨ x ∈ ops := by
  unfold opInsert
  split_ifs with h
  · constructor
    · exact Or.inr
    · rintro (rfl | hx)
      · exact h
      · exact hx
  · simp

theorem mem_opDelete (ops : List Str) (k x : Str) : x ∈ opDelete ops k ↔ x ∈ ops ∧ x ≠ k := by
  simp [opDelete]

theorem opDelete_of_not_mem (ops : List Str) (k : Str) (h : k ∉ ops) : opDelete ops k = ops := by
  unfold opDelete
  rw [List.filter_eq_self]
  intro a ha
  have : a ≠ k := fun hk => h (hk ▸ ha)
  simpa using this

theorem Events_send_event (c : IRCconn) (ev : Event) :
    (c.send (Send.event ev)).Events = c.Events ++ [ev] := by
  simp [IRCconn.send, IRCconn.Events, List.filterMap_append]

theorem Events_send_out (c : IRCconn) (l : Str) : (c.send (Send.out l)).Events = c.Events := by
  simp [IRCconn.send, IRCconn.Events, List.filterMap_append]

theorem out_send_out (c : IRCconn) (l : Str) : (c.send (Send.out l)).out = c.out ++ [l] := by
  simp [IRCconn.send, IRCconn.out, List.filterMap_append]

theorem out_send_event (c : IRCconn) (ev : Event) : (c.send (Send.event ev)).out = c.out := by
  simp [IRCconn.send, IRCconn.out, List.filterMap_append]

theorem modeLoop_pairs (pairs : List (Str × Str)) (trailing : List Str)
    (h : trailing.length ≤ 1) (ops : List Str) :
    modeLoop ops (flattenPairs pairs ++ trailing) = pairs.foldl specApplyMode ops := by
  induction pairs generalizing ops with
  | nil =>
    match trailing, h with
    | [], _ => rfl
    | [_], _ => rfl
  | cons p rest ih =>
    show modeLoop (specApplyMode ops p) (flattenPairs rest ++ trailing) = _
    rw [ih]
    rfl

theorem hasPrefix_byte (c d : Nat) (t : Str) : hasPrefix (d :: t) [c] = (c == d) := by
  simp [hasPrefix, List.isPrefixOf]

theorem Index_byte_append (c : Nat) (x y : Str) (h : c ∉ x) :
    Index (x ++ c :: y) [c] = some x.length := by
  induction x with
  | nil => simp [Index, hasPrefix_byte]
  | cons d t ih =>
    have hd : c ≠ d := fun hcd => h (hcd ▸ List.mem_cons_self _ _)
    have ht : c ∉ t := fun hct => h (List.mem_cons_of_mem _ hct)
    simp [Index, hasPrefix_byte, hd, ih ht]

theorem Index_byte_none (c : Nat) (s : Str) (h : c ∉ s) : Index s [c] = none := by
  induction s with
  | nil => simp [Index]
  | cons d t ih =>
    have hd : c ≠ d := fun hcd => h (hcd ▸ List.mem_cons_self _ _)
    have ht : c ∉ t := fun hct => h (List.mem_cons_of_mem _ hct)
    simp [Index, hasPrefix_byte, hd, ih ht]

theorem splituserstring_full (n u h : Str) (hn1 : 33 ∉ n) (hn2 : 64 ∉ n) (hu : 64 ∉ u) :
    splituserstring (n ++ 33 :: (u ++ 64 :: h)) = some (n, u, h) := by
  have h1 : Index (n ++ 33 :: (u ++ 64 :: h)) (str "!") = some n.length :=
    Index_byte_append 33 n _ hn1
  have h2 : Index (n ++ 33 :: (u ++ 64 :: h)) (str "@") = some (n ++ 33 :: u).length := by
    have hm : 64 ∉ n ++ 33 :: u := by simp [hn2, hu]
    have := Index_byte_append 64 (n ++ 33 :: u) h hm
    simpa using this
  have e1 : n ++ 33 :: (u ++ 64 :: h) = n ++ ([33] ++ u ++ 64 :: h) := by simp
  have e2 : n ++ 33 :: (u ++ 64 :: h) = (n ++ [33]) ++ (u ++ 64 :: h) := by simp
  have e3 : n ++ 33 :: (u ++ 64 :: h) = (n ++ 33 :: u ++ [64]) ++ h := by simp
  have s1 : slice (n ++ 33 :: (u ++ 64 :: h)) 0 n.length = some n := by
    unfold slice
    rw [if_pos (by simp)]
    simp
  have s2 : slice (n ++ 33 :: (u ++ 64 :: h)) (n.length + 1) (n ++ 33 :: u).length
      = some u := by
    unfold slice
    rw [if_pos (by simp)]
    have t1 : List.take (n ++ 33 :: u).length (n ++ 33 :: (u ++ 64 :: h)) = n ++ 33 :: u := by
      have : n ++ 33 :: (u ++ 64 :: h) = (n ++ 33 :: u) ++ 64 :: h := by simp
      rw [this, List.take_left]
    rw [t1]
    have t2 : n ++ 33 :: u = (n ++ [33]) ++ u := by simp
    have t3 : n.length + 1 = (n ++ [33]).length := by simp
    rw [t2, t3, List.drop_left]
  have s3 : sliceFrom (n ++ 33 :: (u ++ 64 :: h)) ((n ++ 33 :: u).length + 1) = some h := by
    unfold sliceFrom
    rw [if_pos (by simp only [List.length_append, List.length_cons]; omega)]
    have t3 : (n ++ 33 :: u).length + 1 = (n ++ 33 :: u ++ [64]).length := by
      simp only [List.length_append, List.length_cons, List.length_nil]
    rw [e3, t3, List.drop_left]
  unfold splituserstring
  rw [h1, h2]
  simp only [s1, s2, s3]

theorem splituserstring_bare (s : Str) (hs : 33 ∉ s ∨ 64 ∉ s) :
    splituserstring s = some ([], [], []) := by
  unfold splituserstring
  rcases hs with h | h
  · have : Index s (str "!") = none := Index_byte_none 33 s h
    rw [this]
  · have : Index s (str "@") = none := Index_byte_none 64 s h
    rw [this]
    cases Index s (str "!") <;> rfl

theorem route_events (e : Env) (c c' : IRCconn) (ev : Event) (h : route e c ev = some c') :
    (ev.cmd ∉ internalTags → c'.Events = c.Events ++ [ev]) ∧
    (ev.cmd ∈ internalTags → c'.Events = c.Events) ∧
    (ev.cmd = str "welcome" →
      c'.sends = c.sends ++ [Send.out (str "NAMES " ++ e.channel), Send.event ev]) := by
  have hw : str "welcome" ∉ internalTags := by decide
  unfold route at h
  by_cases h1 : ev.cmd = str "welcome"
  · rw [if_pos h1] at h
    obtain rfl := Option.some.inj h
    refine ⟨fun _ => ?_, fun hi => absurd (h1 ▸ hi) hw, fun _ => ?_⟩
    · rw [Events_send_event, Events_send_out]
    · simp [IRCconn.send]
  rw [if_neg h1] at h
  by_cases h2 : ev.cmd = str "rpl_namreply"
  · rw [if_pos h2] at h
    obtain rfl := Option.some.inj h
    have hi : ev.cmd ∈ internalTags := by rw [h2]; decide
    exact ⟨fun hn => absurd hi hn, fun _ => rfl, fun hc => absurd hc h1⟩
  rw [if_neg h2] at h
  by_cases h3 : ev.cmd = str "mode"
  · rw [if_pos h3] at h
    have hi : ev.cmd ∈ internalTags := by rw [h3]; decide
    cases hp : processmode c.operators ev.args with
    | none => rw [hp] at h; cases h
    | some ops =>
      rw [hp] at h
      obtain rfl := Option.some.inj h
      exact ⟨fun hn => absurd hi hn, fun _ => rfl, fun hc => absurd hc h1⟩
  rw [if_neg h3] at h
  by_cases h4 : ev.cmd = str "nick"
  · rw [if_pos h4] at h
    obtain rfl := Option.some.inj h
    have hi : ev.cmd ∈ internalTags := by rw [h4]; decide
    exact ⟨fun hn => absurd hi hn, fun _ => rfl, fun hc => absurd hc h1⟩
  rw [if_neg h4] at h
  by_cases h5 : ev.cmd = str "part" ∨ ev.cmd = str "quit"
  · rw [if_pos h5] at h
    obtain rfl := Option.some.inj h
    have hi : ev.cmd ∈ internalTags := by
      rcases h5 with h5 | h5 <;> (rw [h5]; decide)
    exact ⟨fun hn => absurd hi hn, fun _ => rfl, fun hc => absurd hc h1⟩
  rw [if_neg h5] at h
  by_cases h6 : ev.cmd = str "ping"
  · rw [if_pos h6] at h
    obtain rfl := Option.some.inj h
    have hi : ev.cmd ∈ internalTags := by rw [h6]; decide
    exact ⟨fun hn => absurd hi hn, fun _ => Events_send_out _ _, fun hc => absurd hc h1⟩
  rw [if_neg h6] at h
  by_cases h7 : ev.cmd = str "version"
  · rw [if_pos h7] at h
    obtain rfl := Option.some.inj h
    have hi : ev.cmd ∈ internalTags := by rw [h7]; decide
    exact ⟨fun hn => absurd hi hn, fun _ => Events_send_out _ _, fun hc => absurd hc h1⟩
  rw [if_neg h7] at h
  by_cases h8 : ev.cmd = str "time"
  · rw [if_pos h8] at h
    obtain rfl := Option.some.inj h
    have hi : ev.cmd ∈ internalTags := by rw [h8]; decide
    exact ⟨fun hn => absurd hi hn, fun _ => Events_send_out _ _, fun hc => absurd hc h1⟩
  rw [if_neg h8] at h
  by_cases h9 : ev.cmd = str "ctcp-ping"
  · rw [if_pos h9] at h
    obtain rfl := Option.some.inj h
    have hi : ev.cmd ∈ internalTags := by rw [h9]; decide
    exact ⟨fun hn => absurd hi hn, fun _ => Events_send_out _ _, fun hc => absurd hc h1⟩
  rw [if_neg h9] at h
  by_cases h10 : ev.cmd = str "finger"
  · rw [if_pos h10] at h
    obtain rfl := Option.some.inj h
    have hi : ev.cmd ∈ internalTags := by rw [h10]; decide
    exact ⟨fun hn => absurd hi hn, fun _ => Events_send_out _ _, fun hc => absurd hc h1⟩
  rw [if_neg h10] at h
  obtain rfl := Option.some.inj h
  refine ⟨fun _ => Events_send_event _ _, fun hi => ?_, fun hc => absurd hc h1⟩
  exfalso
  simp only [internalTags, List.mem_cons, List.mem_singleton, List.mem_nil_iff,
    or_false] at hi
  tauto

theorem Split_nosep (sep : Nat) (t : Str) (h : sep ∉ t) : Split sep t = [t] := by
  induction t with
  | nil => rfl
  | cons c r ih =>
    have hc : c ≠ sep := fun hcs => h (hcs ▸ List.mem_cons_self _ _)
    have hr : sep ∉ r := fun hsr => h (List.mem_cons_of_mem _ hsr)
    simp [Split, hc, ih hr]

theorem Split_append (sep : Nat) (t z : Str) (h : sep ∉ t) :
    Split sep (t ++ sep :: z) = t :: Split sep z := by
  induction t with
  | nil => simp [Split]
  | cons c r ih =>
    have hc : c ≠ sep := fun hcs => h (hcs ▸ List.mem_cons_self _ _)
    have hr : sep ∉ r := fun hsr => h (List.mem_cons_of_mem _ hsr)
    simp [Split, hc, ih hr]

theorem Split_unwords (tokens : List Str) (hne : tokens ≠ [])
    (h : ∀ t ∈ tokens, 32 ∉ t) : Split 32 (unwords tokens) = tokens := by
  induction tokens with
  | nil => exact absurd rfl hne
  | cons t rest ih =>
    cases rest with
    | nil => exact Split_nosep 32 t (h t (List.mem_cons_self _ _))
    | cons t2 rest2 =>
      have ht : 32 ∉ t := h t (List.mem_cons_self _ _)
      have hr : ∀ x ∈ t2 :: rest2, 32 ∉ x := fun x hx => h x (List.mem_cons_of_mem _ hx)
      show Split 32 (t ++ 32 :: unwords (t2 :: rest2)) = _
      rw [Split_append 32 t _ ht, ih (List.cons_ne_nil _ _) hr]

theorem namesStep_other (ops : List Str) (t n : Str) (h : n ≠ specNameOf t) :
    n ∈ namesStep ops t ↔ n ∈ ops := by
  unfold namesStep
  unfold specNameOf at h
  by_cases h1 : t.length < 2
  · rw [if_pos h1]
  · rw [if_neg h1]
    by_cases h2 : t.head? = some 64
    · rw [if_pos h2, mem_opInsert]
      rw [if_pos (Or.inl h2)] at h
      exact ⟨fun hx => hx.resolve_left h, Or.inr⟩
    · rw [if_neg h2, mem_opDelete]
      by_cases h3 : t.head? = some 43
      · rw [if_pos h3]
        rw [if_pos (Or.inr h3)] at h
        exact ⟨fun hx => hx.1, fun hx => ⟨hx, h⟩⟩
      · rw [if_neg h3]
        rw [if_neg (by tauto)] at h
        exact ⟨fun hx => hx.1, fun hx => ⟨hx, h⟩⟩

theorem namesStep_op (ops : List Str) (t : Str) (h : t.head? = some 64) (hl : 2 ≤ t.length) :
    specNameOf t ∈ namesStep ops t := by
  unfold namesStep specNameOf
  rw [if_neg (by omega), if_pos h, if_pos (Or.inl h), mem_opInsert]
  exact Or.inl rfl

theorem namesStep_nonop (ops : List Str) (t : Str) (h : t.head? ≠ some 64)
    (hl : 2 ≤ t.length) : specNameOf t ∉ namesStep ops t := by
  unfold namesStep specNameOf
  rw [if_neg (by omega), if_neg h, mem_opDelete]
  by_cases h3 : t.head? = some 43
  · rw [if_pos h3, if_pos (Or.inr h3)]
    exact fun hx => hx.2 rfl
  · rw [if_neg h3, if_neg (by tauto)]
    exact fun hx => hx.2 rfl

theorem namesStep_short (ops : List Str) (t : Str) (hl : t.length < 2) :
    namesStep ops t = ops := by
  unfold namesStep
  rw [if_pos hl]

theorem foldl_namesStep_other (ts : List Str) (ops : List Str) (n : Str)
    (h : ∀ t ∈ ts, n ≠ specNameOf t) : n ∈ ts.foldl namesStep ops ↔ n ∈ ops := by
  induction ts generalizing ops with
  | nil => rfl
  | cons t rest ih =>
    rw [List.foldl_cons, ih _ (fun x hx => h x (List.mem_cons_of_mem _ hx))]
    exact namesStep_other ops t n (h t (List.mem_cons_self _ _))

theorem foldl_namesStep_spec (ts : List Str) (ops : List Str)
    (hnodup : (ts.map specNameOf).Nodup) :
    (∀ t ∈ ts, t.head? = some 64 → 2 ≤ t.length → specNameOf t ∈ ts.foldl namesStep ops) ∧
    (∀ t ∈ ts, t.head? ≠ some 64 → 2 ≤ t.length → specNameOf t ∉ ts.foldl namesStep ops) ∧
    (∀ t ∈ ts, t.length < 2 → (specNameOf t ∈ ts.foldl namesStep ops ↔ specNameOf t ∈ ops)) := by
  induction ts generalizing ops with
  | nil => simp
  | cons t rest ih =>
    rw [List.map_cons, List.nodup_cons] at hnodup
    obtain ⟨hnot, hrest⟩ := hnodup
    have hdiff : ∀ x ∈ rest, specNameOf t ≠ specNameOf x := fun x hx heq =>
      hnot (heq ▸ List.mem_map_of_mem _ hx)
    obtain ⟨i1, i2, i3⟩ := ih (namesStep ops t) hrest
    simp only [List.foldl_cons]
    refine ⟨?_, ?_, ?_⟩
    · intro x hx h64 hl
      rcases List.mem_cons.1 hx with rfl | hx
      · rw [foldl_namesStep_other rest _ _ hdiff]
        exact namesStep_op ops x h64 hl
      · exact i1 x hx h64 hl
    · intro x hx h64 hl
      rcases List.mem_cons.1 hx with rfl | hx
      · rw [foldl_namesStep_other rest _ _ hdiff]
        exact namesStep_nonop ops x h64 hl
      · exact i2 x hx h64 hl
    · intro x hx hl
      rcases List.mem_cons.1 hx with rfl | hx
      · rw [foldl_namesStep_other rest _ _ hdiff, namesStep_short ops x hl]
      · rw [i3 x hx hl]
        exact namesStep_other ops t _ (fun heq => hdiff x hx heq.symm)

theorem processnames_unwords (ops : List Str) (tokens : List Str)
    (h : ∀ t ∈ tokens, 32 ∉ t) :
    processnames ops (unwords tokens) = tokens.foldl namesStep ops := by
  unfold processnames
  cases tokens with
  | nil => rfl
  | cons t rest => rw [Split_unwords (t :: rest) (List.cons_ne_nil _ _) h]

theorem spaceRunes_pos : ∀ e ∈ spaceRunes, 1 ≤ e.length := by decide

theorem trimLeftSpace_enough (n : Nat) (s : Str) (h : s.length ≤ n) :
    startsWithSpace (trimLeftSpace n s) = false := by
  induction n generalizing s with
  | zero =>
    have : s = [] := List.length_eq_zero.1 (Nat.le_zero.1 h)
    subst this
    decide
  | succ k ih =>
    unfold trimLeftSpace
    cases hf : spaceRunes.find? fun e => e.isPrefixOf s with
    | none =>
      simp only
      unfold startsWithSpace
      rw [List.any_eq_false]
      intro e he
      have := (List.find?_eq_none.1 hf) e he
      simpa using this
    | some e =>
      simp only
      apply ih
      have hmem : e ∈ spaceRunes := List.mem_of_find?_eq_some hf
      have hlen := spaceRunes_pos e hmem
      rw [List.length_drop]
      omega

theorem trimRightSpaceRev_enough (n : Nat) (r : Str) (h : r.length ≤ n) :
    endsWithSpace (trimRightSpaceRev n r).reverse = false := by
  induction n generalizing r with
  | zero =>
    have : r = [] := List.length_eq_zero.1 (Nat.le_zero.1 h)
    subst this
    decide
  | succ k ih =>
    unfold trimRightSpaceRev
    cases hf : spaceRunes.find? fun e => e.reverse.isPrefixOf r with
    | none =>
      simp only
      unfold endsWithSpace
      rw [List.any_eq_false, List.reverse_reverse]
      intro e he
      have := (List.find?_eq_none.1 hf) e he
      simpa using this
    | some e =>
      simp only
      apply ih
      have hmem : e ∈ spaceRunes := List.mem_of_find?_eq_some hf
      have hlen := spaceRunes_pos e hmem
      rw [List.length_drop]
      omega

theorem collapseFrom_nospace (c : Nat) (t z : Str) (b : Bool) (h : 32 ∉ c :: t) :
    collapseFrom b (c :: t ++ z) = c :: t ++ collapseFrom false z := by
  induction t generalizing c b with
  | nil =>
    have hc : c ≠ 32 := fun hc => h (hc ▸ List.mem_cons_self _ _)
    simp [collapseFrom, hc]
  | cons d r ih =>
    have hc : c ≠ 32 := fun hc => h (hc ▸ List.mem_cons_self _ _)
    have hr : 32 ∉ d :: r := fun hm => h (List.mem_cons_of_mem _ hm)
    have := ih d false hr
    simp only [List.cons_append] at this ⊢
    rw [collapseFrom, if_neg hc, this]

theorem collapseFrom_token (t z : Str) (b : Bool) (hne : t ≠ []) (h : 32 ∉ t) :
    collapseFrom b (t ++ z) = t ++ collapseFrom false z := by
  cases t with
  | nil => exact absurd rfl hne
  | cons c r => exact collapseFrom_nospace c r z b h

theorem collapseFrom_spaced (args : List Str) (z : Str)
    (h : ∀ a ∈ args, a ≠ [] ∧ 32 ∉ a) :
    collapseFrom false (spaced args ++ 32 :: z) = spaced args ++ 32 :: collapseFrom true z := by
  induction args with
  | nil => simp [spaced, collapseFrom]
  | cons a r ih =>
    have ha := h a (List.mem_cons_self _ _)
    have hr : ∀ x ∈ r, x ≠ [] ∧ 32 ∉ x := fun x hx => h x (List.mem_cons_of_mem _ hx)
    have e1 : spaced (a :: r) ++ 32 :: z = 32 :: (a ++ (spaced r ++ 32 :: z)) := by
      simp [spaced]
    have e2 : spaced (a :: r) ++ 32 :: collapseFrom true z
        = 32 :: (a ++ (spaced r ++ 32 :: collapseFrom true z)) := by
      simp [spaced]
    rw [e1, e2]
    have : collapseFrom false (32 :: (a ++ (spaced r ++ 32 :: z)))
        = 32 :: collapseFrom true (a ++ (spaced r ++ 32 :: z)) := by
      simp [collapseFrom]
    rw [this, collapseFrom_token a _ true ha.1 ha.2, ih hr]

theorem collapseFrom_norun (t : Str) (b : Bool) (hrun : ¬ [32, 32] <:+: t)
    (hb : b = true → t.head? ≠ some 32) : collapseFrom b t = t := by
  induction t generalizing b with
  | nil => rfl
  | cons c r ih =>
    have hr : ¬ [32, 32] <:+: r := fun hi => hrun (hi.trans (List.suffix_cons c r).isInfix)
    by_cases hc : c = 32
    · subst hc
      have hbf : b = false := by
        cases b with
        | false => rfl
        | true => exact absurd rfl (hb rfl)
      subst hbf
      have hh : r.head? ≠ some 32 := by
        intro hh
        cases r with
        | nil => cases hh
        | cons d r2 =>
          simp only [List.head?_cons, Option.some.injEq] at hh
          subst hh
          exact hrun (List.prefix_append [32, 32] r2).isInfix
      have := ih true hr (fun _ => hh)
      simp [collapseFrom, this]
    · have := ih false hr (fun hf => by cases hf)
      simp [collapseFrom, hc, this]

theorem collapseSpaces_chatLine (src command : Str) (args : List Str) (trailing : Str)
    (hsrc : 32 ∉ src) (hcmd : command ≠ [] ∧ 32 ∉ command)
    (hargs : ∀ a ∈ args, a ≠ [] ∧ 32 ∉ a)
    (hrun : ¬ [32, 32] <:+: trailing) :
    collapseSpaces (chatLine src command args trailing) = chatLine src command args trailing := by
  unfold collapseSpaces chatLine
  have h1 : 32 ∉ 58 :: src := by
    intro hm
    rcases List.mem_cons.1 hm with h | h
    · cases h
    · exact hsrc h
  have e : 58 :: src ++ 32 :: command ++ spaced args ++ 32 :: 58 :: trailing
      = 58 :: src ++ (spaced (command :: args) ++ 32 :: 58 :: trailing) := by
    simp [spaced]
  have hall : ∀ a ∈ command :: args, a ≠ [] ∧ 32 ∉ a := by
    intro a ha
    rcases List.mem_cons.1 ha with rfl | ha
    · exact hcmd
    · exact hargs a ha
  rw [e, collapseFrom_nospace 58 src _ false h1, collapseFrom_spaced _ _ hall]
  have : collapseFrom true (58 :: trailing) = 58 :: trailing := by
    have ht := collapseFrom_norun trailing false hrun (fun hf => by cases hf)
    simp [collapseFrom, ht]
  rw [this]

theorem prefix_of_prefix_append_cons (c : Nat) (x a b : Str) (h : x <+: a ++ c :: b)
    (hc : c ∉ x) : x <+: a := by
  induction x generalizing a with
  | nil => exact List.nil_prefix
  | cons d r ih =>
    cases a with
    | nil =>
      rw [List.nil_append, List.cons_prefix_cons] at h
      exact absurd (h.1 ▸ List.mem_cons_self _ _) hc
    | cons a0 a1 =>
      rw [List.cons_append, List.cons_prefix_cons] at h
      rw [List.cons_prefix_cons]
      exact ⟨h.1, ih a1 h.2 (fun hm => hc (List.mem_cons_of_mem _ hm))⟩

theorem trimLeftSpace_colon (n : Nat) (r : Str) : trimLeftSpace n (58 :: r) = 58 :: r := by
  cases n with
  | zero => rfl
  | succ k =>
    have : (spaceRunes.find? fun e => e.isPrefixOf (58 :: r)) = none := by
      simp [spaceRunes, List.isPrefixOf]
    simp only [trimLeftSpace, this]

theorem trimRightSpaceRev_id (n : Nat) (s : Str) (h : endsWithSpace s = false) :
    trimRightSpaceRev n s.reverse = s.reverse := by
  cases n with
  | zero => rfl
  | succ k =>
    have : (spaceRunes.find? fun e => e.reverse.isPrefixOf s.reverse) = none := by
      rw [List.find?_eq_none]
      intro e he
      unfold endsWithSpace at h
      rw [List.any_eq_false] at h
      exact h e he
    simp only [trimRightSpaceRev, this]

theorem endsWithSpace_after_colon (p t : Str) (h : endsWithSpace t = false) :
    endsWithSpace (p ++ 58 :: t) = false := by
  unfold endsWithSpace at h ⊢
  rw [List.any_eq_false] at h ⊢
  intro e he hpre
  refine h e he ?_
  have hc : ∀ x ∈ spaceRunes, 58 ∉ x := by decide
  have hrev : (p ++ 58 :: t).reverse = t.reverse ++ 58 :: p.reverse := by simp
  rw [hrev, List.isPrefixOf_iff_prefix] at hpre
  rw [List.isPrefixOf_iff_prefix]
  exact prefix_of_prefix_append_cons 58 _ _ _ hpre (fun hm => hc e he (List.mem_reverse.1 hm))

theorem TrimSpace_colon (r : Str) (h : endsWithSpace (58 :: r) = false) :
    TrimSpace (58 :: r) = 58 :: r := by
  unfold TrimSpace
  simp only [trimLeftSpace_colon, trimRightSpaceRev_id _ _ h, List.reverse_reverse]

theorem Index_cons_of_not_prefix (c : Nat) (t sub : Str) (h : hasPrefix (c :: t) sub = false) :
    Index (c :: t) sub = (Index t sub).map (· + 1) := by
  rw [Index, h]
  cases Index t sub <;> rfl

theorem Index_sep_skip (t z : Str) (h : 32 ∉ t) :
    Index (t ++ z) [32, 58] = (Index z [32, 58]).map (· + t.length) := by
  induction t with
  | nil => simp
  | cons c r ih =>
    have hc : 32 ≠ c := fun hc => h (hc ▸ List.mem_cons_self _ _)
    have hr : 32 ∉ r := fun hm => h (List.mem_cons_of_mem _ hm)
    have hp : hasPrefix (c :: (r ++ z)) [32, 58] = false := by
      simp [hasPrefix, List.isPrefixOf, hc]
    rw [List.cons_append, Index_cons_of_not_prefix _ _ _ hp, ih hr]
    cases Index z [32, 58] with
    | none => rfl
    | some i => simp only [Option.map_some', List.length_cons, Option.some.injEq]; omega

theorem Index_sep_spaced (args : List Str) (y : Str)
    (h : ∀ a ∈ args, a ≠ [] ∧ 32 ∉ a ∧ a.head? ≠ some 58) :
    Index (spaced args ++ 32 :: 58 :: y) [32, 58] = some (spaced args).length := by
  induction args with
  | nil => simp [spaced, Index, hasPrefix, List.isPrefixOf]
  | cons a r ih =>
    obtain ⟨hne, hsp, hcol⟩ := h a (List.mem_cons_self _ _)
    have hr : ∀ x ∈ r, x ≠ [] ∧ 32 ∉ x ∧ x.head? ≠ some 58 :=
      fun x hx => h x (List.mem_cons_of_mem _ hx)
    cases a with
    | nil => exact absurd rfl hne
    | cons c a1 =>
      have hc : 58 ≠ c := fun hc => hcol (by rw [← hc]; rfl)
      have e1 : spaced ((c :: a1) :: r) ++ 32 :: 58 :: y
          = 32 :: ((c :: a1) ++ (spaced r ++ 32 :: 58 :: y)) := by
        simp [spaced]
      have hp : hasPrefix (32 :: ((c :: a1) ++ (spaced r ++ 32 :: 58 :: y))) [32, 58] = false := by
        simp [hasPrefix, List.isPrefixOf, hc]
      rw [e1, Index_cons_of_not_prefix _ _ _ hp, Index_sep_skip _ _ hsp, ih hr]
      simp only [Option.map_some', Option.some.injEq, spaced, List.length_cons,
        List.length_append]
      omega

theorem Split_spaced (command : Str) (args : List Str) (hcmd : 32 ∉ command)
    (h : ∀ a ∈ args, 32 ∉ a) : Split 32 (command ++ spaced args) = command :: args := by
  induction args generalizing command with
  | nil => simpa [spaced] using Split_nosep 32 command hcmd
  | cons a r ih =>
    have e : command ++ spaced (a :: r) = command ++ 32 :: (a ++ spaced r) := by simp [spaced]
    rw [e, Split_append 32 command _ hcmd,
      ih a (h a (List.mem_cons_self _ _)) (fun x hx => h x (List.mem_cons_of_mem _ hx))]

theorem readCommand_spaced (e : Env) (ev : Event) (command : Str) (args : List Str)
    (trailing : Str) (hcmd : 32 ∉ command)
    (hargs : ∀ a ∈ args, a ≠ [] ∧ 32 ∉ a ∧ a.head? ≠ some 58)
    (hev : ev.args = []) :
    readCommand e ev (command ++ spaced args ++ 32 :: 58 :: trailing)
      = { ev with cmd := ToLower e command, args := args, msg := trailing } := by
  have hi : Index (command ++ spaced args ++ 32 :: 58 :: trailing) [32, 58]
      = some (command ++ spaced args).length := by
    rw [List.append_assoc, Index_sep_skip _ _ hcmd, Index_sep_spaced args trailing hargs]
    simp only [Option.map_some', Option.some.injEq, List.length_append]
    omega
  have hs : SplitN2 (command ++ spaced args ++ 32 :: 58 :: trailing) (str " :")
      = [command ++ spaced args, trailing] := by
    have e2 : str " :" = [32, 58] := rfl
    rw [SplitN2, e2, hi]
    simp only [List.take_left, List.length_cons, List.length_nil]
    have e3 : command ++ spaced args ++ 32 :: 58 :: trailing
        = (command ++ spaced args ++ [32, 58]) ++ trailing := by simp
    have e4 : (command ++ spaced args).length + (0 + 1 + 1)
        = (command ++ spaced args ++ [32, 58]).length := by
      simp only [List.length_append, List.length_cons, List.length_nil]
    rw [e3, e4, List.drop_left]
  have hsp : Split 32 (command ++ spaced args) = command :: args :=
    Split_spaced command args hcmd (fun a ha => (hargs a ha).2.1)
  unfold readCommand
  simp only [hs, List.length_cons, List.length_nil, List.headD_cons, hsp, List.getD_cons_succ,
    List.getD_cons_zero]
  cases args with
  | nil =>
    obtain ⟨cmd, msg, nick, user, host, src, args0, raw⟩ := ev
    simp only at hev
    subst hev
    simp
  | cons a r => simp

theorem Index_byte_lt (c : Nat) (s : Str) (i : Nat) (h : Index s [c] = some i) :
    i < s.length := by
  induction s generalizing i with
  | nil => simp [Index] at h
  | cons d t ih =>
    rw [Index] at h
    by_cases hp : hasPrefix (d :: t) [c] = true
    · rw [if_pos hp] at h
      cases h
      simp
    · rw [if_neg hp] at h
      cases hi : Index t [c] with
      | none => rw [hi] at h; cases h
      | some k =>
        rw [hi] at h
        cases h
        have := ih k hi
        simp only [List.length_cons]
        omega

theorem readSource_prefix (ev : Event) (src rest : Str) (h : 32 ∉ src) :
    readSource ev (58 :: src ++ 32 :: rest) = some ({ ev with src := src }, rest) := by
  have h1 : 32 ∉ 58 :: src := by
    intro hm
    rcases List.mem_cons.1 hm with h2 | h2
    · cases h2
    · exact h h2
  have hi : Index (58 :: src ++ 32 :: rest) (str " ") = some (58 :: src).length :=
    Index_byte_append 32 (58 :: src) rest h1
  have s1 : slice (58 :: src ++ 32 :: rest) 1 (58 :: src).length = some src := by
    unfold slice
    rw [if_pos (by simp), List.take_left]
    rfl
  have s2 : sliceFrom (58 :: src ++ 32 :: rest) ((58 :: src).length + 1) = some rest := by
    unfold sliceFrom
    rw [if_pos (by simp)]
    have e3 : 58 :: src ++ 32 :: rest = (58 :: src ++ [32]) ++ rest := by simp
    have e4 : (58 :: src).length + 1 = (58 :: src ++ [32]).length := by simp
    rw [e3, e4, List.drop_left]
  unfold readSource
  rw [hi]
  simp only [s1, s2]

theorem readUser_safe (ev : Event)
    (hsafe : ∀ i j, Index ev.src (str "!") = some i → Index ev.src (str "@") = some j → i < j) :
    ∃ ev2, readUser ev = some ev2 ∧ ev2.src = ev.src ∧ ev2.cmd = ev.cmd ∧ ev2.msg = ev.msg ∧
      ev2.args = ev.args ∧ ev2.raw = ev.raw := by
  unfold readUser
  cases hi : Index ev.src (str "!") with
  | none => exact ⟨ev, rfl, rfl, rfl, rfl, rfl, rfl⟩
  | some i =>
    cases hj : Index ev.src (str "@") with
    | none => exact ⟨ev, rfl, rfl, rfl, rfl, rfl, rfl⟩
    | some j =>
      have hij := hsafe i j hi hj
      have hjl : j < ev.src.length := Index_byte_lt 64 ev.src j hj
      have s1 : slice ev.src 0 i = some ((ev.src.take i).drop 0) := by
        unfold slice
        rw [if_pos ⟨Nat.zero_le _, by omega⟩]
      have s2 : slice ev.src (i + 1) j = some ((ev.src.take j).drop (i + 1)) := by
        unfold slice
        rw [if_pos ⟨by omega, by omega⟩]
      have s3 : sliceFrom ev.src (j + 1) = some (ev.src.drop (j + 1)) := by
        unfold sliceFrom
        rw [if_pos (by omega)]
      simp only [s1, s2, s3]
      exact ⟨_, rfl, rfl, rfl, rfl, rfl, rfl⟩

theorem readUser_full (ev : Event) (n u h : Str) (hn1 : 33 ∉ n) (hn2 : 64 ∉ n) (hu : 64 ∉ u)
    (hsrc : ev.src = n ++ 33 :: (u ++ 64 :: h)) :
    readUser ev = some { ev with nick := n, user := u, host := h } := by
  have hs := splituserstring_full n u h hn1 hn2 hu
  have h1 : Index (n ++ 33 :: (u ++ 64 :: h)) (str "!") = some n.length :=
    Index_byte_append 33 n _ hn1
  have h2 : Index (n ++ 33 :: (u ++ 64 :: h)) (str "@") = some (n ++ 33 :: u).length := by
    have hm : 64 ∉ n ++ 33 :: u := by simp [hn2, hu]
    have := Index_byte_append 64 (n ++ 33 :: u) h hm
    simpa using this
  unfold splituserstring at hs
  rw [h1, h2] at hs
  unfold readUser
  rw [hsrc, h1, h2]
  simp only at hs ⊢
  cases e1 : slice (n ++ 33 :: (u ++ 64 :: h)) 0 n.length with
  | none => rw [e1] at hs; simp at hs
  | some a =>
    cases e2 : slice (n ++ 33 :: (u ++ 64 :: h)) (n.length + 1) (n ++ 33 :: u).length with
    | none => rw [e1, e2] at hs; simp at hs
    | some b2 =>
      cases e3 : sliceFrom (n ++ 33 :: (u ++ 64 :: h)) ((n ++ 33 :: u).length + 1) with
      | none => rw [e1, e2, e3] at hs; simp at hs
      | some c2 =>
        rw [e1, e2, e3] at hs
        simp only [Option.some.injEq, Prod.mk.injEq] at hs
        obtain ⟨rfl, rfl, rfl⟩ := hs
        rfl

theorem lookup_filter_ne (kv : List (Str × Str)) (k k2 : Str) (h : k2 ≠ k) :
    (kv.filter fun p => p.1 ≠ k).lookup k2 = kv.lookup k2 := by
  induction kv with
  | nil => rfl
  | cons p rest ih =>
    obtain ⟨p1, p2⟩ := p
    by_cases hp : p1 = k
    · have hk : (k2 == p1) = false := by
        have : k2 ≠ p1 := fun hh => h (hh.trans hp)
        simpa using this
      rw [List.filter_cons_of_neg (by simpa using hp), ih, List.lookup_cons, hk]
    · rw [List.filter_cons_of_pos (by simpa using hp), List.lookup_cons, List.lookup_cons, ih]

theorem kvGet_kvSet (kv : List (Str × Str)) (k v k2 : Str) :
    kvGet (kvSet kv k v) k2 = if k2 = k then v else kvGet kv k2 := by
  unfold kvGet kvSet
  by_cases h : k2 = k
  · subst h
    simp [List.lookup]
  · have hb : (k2 == k) = false := by simpa using h
    rw [if_neg h, List.lookup_cons, hb, lookup_filter_ne kv k k2 h]

theorem kvLoop_stored (e : Env) (toks : List Str) (kv : List (Str × Str)) (k : Str) :
    kvGet (kvLoop e kv toks) k = (storedAfter e toks k).getD (kvGet kv k) := by
  induction toks generalizing kv with
  | nil => rfl
  | cons a rest ih =>
    cases rest with
    | nil => rfl
    | cons b rest2 =>
      rw [kvLoop, ih, storedAfter]
      cases storedAfter e (b :: rest2) k with
      | some v => rfl
      | none =>
        simp only [Option.getD_none, kvGet_kvSet]
        by_cases h : ToLower e a = k
        · rw [if_pos h, if_pos h.symm]
          rfl
        · rw [if_neg h, if_neg (fun hh => h hh.symm)]
          rfl

theorem Split_ne_nil (sep : Nat) (s : Str) : Split sep s ≠ [] := by
  cases s with
  | nil => simp [Split]
  | cons c t =>
    unfold Split
    by_cases hc : c = sep
    · rw [if_pos hc]
      simp
    · rw [if_neg hc]
      cases Split sep t <;> simp

theorem Split_length_of_mem (sep : Nat) (s : Str) (h : sep ∈ s) : 2 ≤ (Split sep s).length := by
  induction s with
  | nil => cases h
  | cons c t ih =>
    unfold Split
    by_cases hc : c = sep
    · rw [if_pos hc]
      have := List.length_pos.2 (Split_ne_nil sep t)
      simp only [List.length_cons]
      omega
    · rw [if_neg hc]
      have ht : sep ∈ t := by
        rcases List.mem_cons.1 h with h1 | h1
        · exact absurd h1.symm hc
        · exact h1
      have := ih ht
      cases hs : Split sep t with
      | nil => rw [hs] at this; simp at this
      | cons x r =>
        rw [hs] at this
        simpa using this

theorem digits_foldl_ge (ds : Str) (n : Nat) :
    n ≤ ds.foldl (fun a c => a * 10 + (c - 48)) n := by
  induction ds generalizing n with
  | nil => exact Nat.le_refl n
  | cons c t ih =>
    have h := ih (n * 10 + (c - 48))
    simp only [List.foldl_cons]
    omega

theorem parseUint_eq (ds : Str) (n : Nat) (hn : n ≤ 18446744073709551615) :
    parseUint n ds
      = if 18446744073709551615
            < (ds.takeWhile (fun c => decide (48 ≤ c ∧ c ≤ 57))).foldl
                (fun a c => a * 10 + (c - 48)) n then
          some 18446744073709551615
        else if ds.all (fun c => decide (48 ≤ c ∧ c ≤ 57)) = true then
          some (ds.foldl (fun a c => a * 10 + (c - 48)) n)
        else none := by
  induction ds generalizing n with
  | nil =>
    have h : ¬ 18446744073709551615 < n := by omega
    simp [parseUint, h]
  | cons c t ih =>
    unfold parseUint
    by_cases hc : 48 ≤ c ∧ c ≤ 57
    · have hd : decide (48 ≤ c ∧ c ≤ 57) = true := by simpa using hc
      have hge := digits_foldl_ge
        (t.takeWhile (fun c => decide (48 ≤ c ∧ c ≤ 57))) (n * 10 + (c - 48))
      rw [if_pos hc]
      simp only [List.takeWhile_cons, hd, if_true, List.foldl_cons, List.all_cons,
        Bool.true_and]
      by_cases h1 : 1844674407370955162 ≤ n
      · rw [if_pos h1, if_pos (by omega)]
      · rw [if_neg h1]
        by_cases h2 : 18446744073709551615 < n * 10 + (c - 48)
        · rw [if_pos h2, if_pos (by omega)]
        · rw [if_neg h2, ih _ (by omega)]
    · have hd : decide (48 ≤ c ∧ c ≤ 57) = false := by simpa using hc
      have h : ¬ 18446744073709551615 < n := by omega
      rw [if_neg hc]
      simp [List.takeWhile_cons, hc, h]

theorem digits_takeWhile_all (ds : Str)
    (h : ds.all (fun c => decide (48 ≤ c ∧ c ≤ 57)) = true) :
    ds.takeWhile (fun c => decide (48 ≤ c ∧ c ≤ 57)) = ds := by
  induction ds with
  | nil => rfl
  | cons c t ih =>
    simp only [List.all_cons, Bool.and_eq_true] at h
    simp only [List.takeWhile_cons, h.1, if_true, ih h.2]

theorem clamp_eq (neg : Prop) [Decidable neg] (n : Nat) :
    (if neg then (if 2 ^ 63 < n then -(2 ^ 63 : Int) else -(n : Int))
      else (if 2 ^ 63 ≤ n then (2 ^ 63 - 1 : Int) else (n : Int)))
    = (if (if neg then -(n : Int) else (n : Int)) < -9223372036854775808 then
        -9223372036854775808
      else if 9223372036854775808 ≤ (if neg then -(n : Int) else (n : Int)) then
        9223372036854775807
      else (if neg then -(n : Int) else (n : Int))) := by
  by_cases h : neg
  · simp only [if_pos h]
    norm_num
    split_ifs <;> omega
  · simp only [if_neg h]
    norm_num
    split_ifs <;> omega

theorem clamp_above (neg : Prop) [Decidable neg] (n : Nat) (h : 18446744073709551615 < n) :
    (if neg then (if 2 ^ 63 < 18446744073709551615 then -(2 ^ 63 : Int)
        else -((18446744073709551615 : Nat) : Int))
      else (if 2 ^ 63 ≤ 18446744073709551615 then (2 ^ 63 - 1 : Int)
        else ((18446744073709551615 : Nat) : Int)))
    = (if (if neg then -(n : Int) else (n : Int)) < -9223372036854775808 then
        -9223372036854775808
      else if 9223372036854775808 ≤ (if neg then -(n : Int) else (n : Int)) then
        9223372036854775807
      else (if neg then -(n : Int) else (n : Int))) := by
  by_cases hn : neg
  · simp only [if_pos hn]
    norm_num
    omega
  · simp only [if_neg hn]
    norm_num
    omega

theorem Atoi_eq_specScore (tok : Str) : Atoi tok = specScore tok := by
  unfold Atoi specScore specDecimal specLeadingValue specDigitsValue
  simp only
  generalize (if tok.head? = some 45 ∨ tok.head? = some 43 then tok.drop 1 else tok) = body
  by_cases hb : body = []
  · have h2 : ¬ (body ≠ [] ∧ body.all (fun c => decide (48 ≤ c ∧ c ≤ 57)) = true) :=
      fun h => h.1 hb
    rw [if_pos hb, if_neg h2]
    subst hb
    simp
  · rw [if_neg hb, parseUint_eq _ _ (by omega)]
    by_cases hd : body.all (fun c => decide (48 ≤ c ∧ c ≤ 57)) = true
    · have h2 : body ≠ [] ∧ body.all (fun c => decide (48 ≤ c ∧ c ≤ 57)) = true := ⟨hb, hd⟩
      rw [if_pos hd, if_pos h2, digits_takeWhile_all body hd]
      by_cases ho : 18446744073709551615 < body.foldl (fun a c => a * 10 + (c - 48)) 0
      · rw [if_pos ho]
        exact clamp_above _ _ ho
      · rw [if_neg ho]
        exact clamp_eq _ _
    · have h2 : ¬ (body ≠ [] ∧ body.all (fun c => decide (48 ≤ c ∧ c ≤ 57)) = true) :=
        fun h => hd h.2
      rw [if_neg hd, if_neg h2]
      by_cases ho : 18446744073709551615
          < (body.takeWhile (fun c => decide (48 ≤ c ∧ c ≤ 57))).foldl
              (fun a c => a * 10 + (c - 48)) 0
      · rw [if_pos ho, if_pos ho]
        by_cases hn : tok.head? = some 45
        · simp only [if_pos hn]
          norm_num
        · simp only [if_neg hn]
          norm_num
      · rw [if_neg ho, if_neg ho]

theorem clientLoop_eq (lines : List Str) (acc : List Client) :
    clientLoop acc lines = acc ++ lines.filterMap specClient := by
  induction lines generalizing acc with
  | nil => simp [clientLoop]
  | cons l rest ih =>
    unfold clientLoop
    simp only
    by_cases h : (Split 32 l).length < 3
    · rw [if_pos h, ih]
      have : specClient l = none := by
        unfold specClient
        rw [if_neg (by omega)]
      rw [List.filterMap_cons_none this]
    · rw [if_neg h, ih]
      have : specClient l
          = some (Client.mk (Trim ((Split 32 l).getD 2 []) 34) (Atoi ((Split 32 l).headD []))) := by
        unfold specClient
        rw [if_pos (by omega), Atoi_eq_specScore]
      rw [List.filterMap_cons_some this]
      simp

theorem query_marker (e : Env) (srv : QServer) (payload : Str) :
    QServer.query e srv (want ++ payload)
      = if (Split 10 payload).length < 2 then
          ({ srv with qonline := false,
                      kv := kvLoop e srv.kv (Split 92 ((Split 10 payload).headD [])) }, none)
        else
          ({ kv := kvLoop e srv.kv (Split 92 ((Split 10 payload).headD [])),
             qclients := clientLoop [] ((Split 10 payload).drop 1), qonline := true }, none) := by
  have hw : (want ++ payload).take want.length = want := List.take_left _ _
  have hd : (want ++ payload).drop want.length = payload := List.drop_left _ _
  have hl : ¬ ((want ++ payload).length < want.length ∨
      (want ++ payload).take want.length ≠ want) := by
    rw [hw]
    simp
  have hne : ¬ (Split 10 payload).length < 1 := by
    have := List.length_pos.2 (Split_ne_nil 10 payload)
    omega
  unfold QServer.query
  simp only [hd]
  rw [if_neg hl, if_neg hne]

theorem lor_shift (i x y : Nat) (hx : x < 2 ^ i) : x ||| (y <<< i) = x + y * 2 ^ i := by
  rw [Nat.shiftLeft_eq, Nat.lor_comm, Nat.mul_comm y, ← Nat.mul_add_lt_is_or hx y]
  omega

theorem lor_bytes16 (p : Nat) : (p % 256) ||| ((p / 256) <<< 8) = p := by
  rw [lor_shift 8 (p % 256) (p / 256) (Nat.mod_lt _ (by decide))]
  have := Nat.div_add_mod p 256
  norm_num
  omega

theorem asSigned16_cases (p : Nat) (hp : p < 65536) :
    (p < 32768 → asSigned 16 p = (p : Int)) ∧
    (32768 ≤ p → asSigned 16 p = (p : Int) - 65536) := by
  have hm : p % 2 ^ 16 = p := Nat.mod_eq_of_lt (by norm_num; exact hp)
  unfold asSigned
  rw [hm]
  constructor
  · intro h
    rw [if_pos (by norm_num; exact h)]
  · intro h
    rw [if_neg (by norm_num; exact h)]
    norm_num

theorem unpack_S (lo hi : Nat) (rest : Str) (x : Int) :
    unpack (str "S") (lo :: hi :: rest) [Arg.int16 x]
      = some (rest, [Arg.int16 (asSigned 16 (lo ||| (hi <<< 8)))], none) := by
  have h2 : ¬ (rest.length + 1 + 1 < 2) := by omega
  simp [unpack, unpackLoop, unpackField, str, h2]

theorem unpackEDF_port_value (p edf : Nat) (rest : Str) (port0 : Int) (tv0 : Str)
    (hedf : edf &&& 0x80 ≠ 0) (b1 : Str) (port1 : Int) (tv1 : Str)
    (err : Option ReflexError)
    (h : unpackEDF (edf :: p % 256 :: p / 256 :: rest) port0 tv0 = some (b1, port1, tv1, err)) :
    port1 = asSigned 16 p := by
  unfold unpackEDF at h
  rw [if_neg (by simp)] at h
  simp only [List.getD_cons_zero, List.drop_succ_cons, List.drop_zero] at h
  rw [if_pos hedf, unpack_S, lor_bytes16] at h
  simp only [List.getD_cons_zero, Arg.int] at h
  repeat' split at h
  all_goals first
    | (simp only [Option.some.injEq, Prod.mk.injEq] at h; exact h.2.1.symm)
    | cases h

theorem getElem?_lt_of_some (l : Str) (k z : Nat) (h : l[k]? = some z) : k < l.length := by
  by_contra hk
  rw [List.getElem?_eq_none (by omega)] at h
  cases h

theorem unpackField_ok (c : Nat) (b rest : Str) (x x1 : Arg)
    (h : unpackField c b x = some (rest, x1, none)) :
    rest = b.drop (specWidth c b) ∧ specWidth c b ≤ b.length := by
  unfold unpackField at h
  unfold specWidth
  split_ifs at h with h1 h2 h3 h4 h5 h6 <;> cases x <;> (try simp only at h)
  all_goals try split at h
  all_goals try split_ifs at h
  all_goals try simp only [Option.some.injEq, Prod.mk.injEq, reduceCtorEq, and_false,
    false_and] at h
  all_goals obtain ⟨hr, -⟩ := h
  all_goals subst hr
  · rename_i hz _
    have := getElem?_lt_of_some _ _ _ hz
    rw [if_pos h1]
    exact ⟨rfl, by omega⟩
  all_goals simp [*]
  all_goals omega

theorem unpackField_err (c : Nat) (b rest : Str) (x x1 : Arg) (err : ReflexError)
    (h : unpackField c b x = some (rest, x1, some err)) : rest = b := by
  unfold unpackField at h
  split_ifs at h with h1 h2 h3 h4 h5 h6 <;> cases x <;> (try simp only at h)
  all_goals try split at h
  all_goals try split_ifs at h
  all_goals try simp only [Option.some.injEq, Prod.mk.injEq, reduceCtorEq, and_false,
    false_and] at h
  all_goals exact h.1.symm

theorem unpackLoop_ok (fmt : Str) (b rest : Str) (a a1 : List Arg)
    (hlen : fmt.length = a.length) (h : unpackLoop fmt b a = some (rest, a1, none)) :
    rest = b.drop (specConsumed fmt b) ∧ specConsumed fmt b ≤ b.length := by
  induction fmt generalizing b a a1 with
  | nil => 
    cases a with
    | nil =>
      unfold unpackLoop at h
      simp only [Option.some.injEq, Prod.mk.injEq] at h
      exact ⟨h.1.symm, Nat.zero_le _⟩
    | cons x a => cases hlen
  | cons c fmt ih =>
    cases a with
    | nil => cases hlen
    | cons x a =>
      unfold unpackLoop at h
      cases hf : unpackField c b x with
      | none => rw [hf] at h; cases h
      | some r =>
        obtain ⟨b1, x1, e1⟩ := r
        rw [hf] at h
        cases e1 with
        | some err => simp at h
        | none =>
          simp only at h
          cases hl : unpackLoop fmt b1 a with
          | none => rw [hl] at h; cases h
          | some r2 =>
            obtain ⟨b2, a2, e2⟩ := r2
            rw [hl] at h
            simp only [Option.some.injEq, Prod.mk.injEq] at h
            obtain ⟨hb, -, he⟩ := h
            subst hb
            subst he
            obtain ⟨w1, w2⟩ := unpackField_ok c b b1 x x1 hf
            obtain ⟨i1, i2⟩ := ih b1 a a2 (by simpa using hlen) hl
            subst w1
            rw [List.length_drop] at i2
            refine ⟨?_, ?_⟩
            · rw [i1, List.drop_drop]
              simp only [specConsumed]
            · simp only [specConsumed]
              omega

theorem unpackLoop_err (fmt : Str) (b rest : Str) (a a1 : List Arg) (err : ReflexError)
    (hlen : fmt.length = a.length) (h : unpackLoop fmt b a = some (rest, a1, some err)) :
    ∃ k, k < fmt.length ∧ rest = b.drop (specConsumed (fmt.take k) b) ∧
      specConsumed (fmt.take k) b ≤ b.length := by
  induction fmt generalizing b a a1 with
  | nil => 
    cases a with
    | nil =>
      unfold unpackLoop at h
      simp at h
    | cons x a => cases hlen
  | cons c fmt ih =>
    cases a with
    | nil => cases hlen
    | cons x a =>
      unfold unpackLoop at h
      cases hf : unpackField c b x with
      | none => rw [hf] at h; cases h
      | some r =>
        obtain ⟨b1, x1, e1⟩ := r
        rw [hf] at h
        cases e1 with
        | some err1 =>
          simp only [Option.some.injEq, Prod.mk.injEq] at h
          have := unpackField_err c b b1 x x1 err1 hf
          refine ⟨0, by simp, ?_, ?_⟩
          · rw [← h.1, this]
            rfl
          · exact Nat.zero_le _
        | none =>
          simp only at h
          cases hl : unpackLoop fmt b1 a with
          | none => rw [hl] at h; cases h
          | some r2 =>
            obtain ⟨b2, a2, e2⟩ := r2
            rw [hl] at h
            simp only [Option.some.injEq, Prod.mk.injEq] at h
            obtain ⟨hb, -, he⟩ := h
            subst hb
            subst he
            obtain ⟨w1, w2⟩ := unpackField_ok c b b1 x x1 hf
            obtain ⟨k, hk, i1, i2⟩ := ih b1 a a2 (by simpa using hlen) hl
            subst w1
            rw [List.length_drop] at i2
            refine ⟨k + 1, by simpa using hk, ?_, ?_⟩
            · rw [i1, List.drop_drop]
              simp only [List.take_succ_cons, specConsumed]
            · simp only [List.take_succ_cons, specConsumed]
              omega

theorem decodeBytes_ascii (l : Str) (h : ∀ c ∈ l, c < 128) : decodeBytes l = l := by
  induction l with
  | nil => rfl
  | cons c t ih =>
    have hc : c < 128 := h c (List.mem_cons_self _ _)
    have ht := ih (fun d hd => h d (List.mem_cons_of_mem _ hd))
    simp [decodeBytes, runeString, hc, ht]

theorem takeWhile_before_zero (name rest : Str) (h : ∀ c ∈ name, c ≠ 0) :
    (name ++ 0 :: rest).takeWhile (fun y => y != 0) = name := by
  induction name with
  | nil => simp
  | cons c t ih =>
    have hc : c ≠ 0 := h c (List.mem_cons_self _ _)
    have hb : (c != 0) = true := by simpa using hc
    have ht := ih (fun d hd => h d (List.mem_cons_of_mem _ hd))
    simp [List.takeWhile, hb, ht]

theorem unpackField_string (name rest s : Str) (h : ∀ c ∈ name, c ≠ 0) :
    unpackField 115 (name ++ 0 :: rest) (Arg.string s)
      = some (rest, Arg.string (decodeBytes name), none) := by
  unfold unpackField
  simp only [if_true, takeWhile_before_zero name rest h]
  rw [if_neg (by simp)]
  have hz : (name ++ 0 :: rest)[name.length]? = some 0 := by
    rw [List.getElem?_append_right (Nat.le_refl _)]
    simp
  rw [hz]
  simp only [ne_eq, not_true_eq_false, if_false]
  have hd : List.drop (name.length + 1) (name ++ 0 :: rest) = rest := by
    have e1 : name ++ 0 :: rest = (name ++ [0]) ++ rest := by simp
    have e2 : name.length + 1 = (name ++ [0]).length := by simp
    rw [e1, e2, List.drop_left]
  rw [hd]

theorem lor_bytes32 (s0 s1 s2 s3 : Nat) (h0 : s0 < 256) (h1 : s1 < 256) (h2 : s2 < 256) :
    s0 ||| (s1 <<< 8) ||| (s2 <<< 16) ||| (s3 <<< 24)
      = s0 + s1 * 256 + s2 * 65536 + s3 * 16777216 := by
  rw [lor_shift 8 s0 s1 (by norm_num; exact h0)]
  rw [lor_shift 16 (s0 + s1 * 2 ^ 8) s2 (by norm_num; omega)]
  rw [lor_shift 24 (s0 + s1 * 2 ^ 8 + s2 * 2 ^ 16) s3 (by norm_num; omega)]
  norm_num

theorem asSigned32_eq (s0 s1 s2 s3 : Nat) (h0 : s0 < 256) (h1 : s1 < 256) (h2 : s2 < 256)
    (h3 : s3 < 256) :
    asSigned 32 (s0 ||| (s1 <<< 8) ||| (s2 <<< 16) ||| (s3 <<< 24)) = specInt32LE s0 s1 s2 s3 := by
  rw [lor_bytes32 s0 s1 s2 s3 h0 h1 h2]
  unfold asSigned specInt32LE
  have hm : (s0 + s1 * 256 + s2 * 65536 + s3 * 16777216) % 2 ^ 32
      = s0 + s1 * 256 + s2 * 65536 + s3 * 16777216 :=
    Nat.mod_eq_of_lt (by norm_num; omega)
  rw [hm]
  norm_num

theorem unpack_record (r : PlayerRecord) (rest : Str) (h : r.wellFormed) :
    unpack (str "bslf") (r.encode ++ rest)
        [Arg.byte 0, Arg.string [], Arg.int32 0, Arg.float32 0]
      = some (rest, [Arg.byte r.idx, Arg.string r.name,
          Arg.int32 (specInt32LE r.s0 r.s1 r.s2 r.s3),
          Arg.float32 ((r.d0 ||| (r.d1 <<< 8) ||| (r.d2 <<< 16) ||| (r.d3 <<< 24)) % 2 ^ 32)],
          none) := by
  obtain ⟨hn, h0, h1, h2, h3⟩ := h
  have hnz : ∀ c ∈ r.name, c ≠ 0 := fun c hc => by have := (hn c hc).1; omega
  have hasc : ∀ c ∈ r.name, c < 128 := fun c hc => (hn c hc).2
  have hb : unpackField 98 (r.encode ++ rest) (Arg.byte 0)
      = some (r.name ++ 0 :: ([r.s0, r.s1, r.s2, r.s3, r.d0, r.d1, r.d2, r.d3] ++ rest),
          Arg.byte r.idx, none) := by
    simp [unpackField, PlayerRecord.encode]
  have hs := unpackField_string r.name
    ([r.s0, r.s1, r.s2, r.s3, r.d0, r.d1, r.d2, r.d3] ++ rest) [] hnz
  rw [decodeBytes_ascii r.name hasc] at hs
  have hl : unpackField 108 ([r.s0, r.s1, r.s2, r.s3, r.d0, r.d1, r.d2, r.d3] ++ rest)
        (Arg.int32 0)
      = some ([r.d0, r.d1, r.d2, r.d3] ++ rest,
          Arg.int32 (specInt32LE r.s0 r.s1 r.s2 r.s3), none) := by
    have hlen : ¬ (([r.s0, r.s1, r.s2, r.s3, r.d0, r.d1, r.d2, r.d3] ++ rest).length < 4) := by
      simp
    unfold unpackField
    simp only [show ¬ ((108 : Nat) = 115) by decide, show ¬ ((108 : Nat) = 98) by decide,
      show ¬ ((108 : Nat) = 83) by decide, if_false, if_true]
    rw [if_neg hlen]
    simp only [List.cons_append, List.nil_append, List.getD_cons_zero, List.getD_cons_succ,
      List.drop_succ_cons, List.drop_zero, asSigned32_eq r.s0 r.s1 r.s2 r.s3 h0 h1 h2 h3]
  have hf : unpackField 102 ([r.d0, r.d1, r.d2, r.d3] ++ rest) (Arg.float32 0)
      = some (rest,
          Arg.float32 ((r.d0 ||| (r.d1 <<< 8) ||| (r.d2 <<< 16) ||| (r.d3 <<< 24)) % 2 ^ 32),
          none) := by
    have hlen : ¬ (([r.d0, r.d1, r.d2, r.d3] ++ rest).length < 4) := by simp
    unfold unpackField
    simp only [show ¬ ((102 : Nat) = 115) by decide, show ¬ ((102 : Nat) = 98) by decide,
      show ¬ ((102 : Nat) = 83) by decide, show ¬ ((102 : Nat) = 108) by decide,
      show ¬ ((102 : Nat) = 76) by decide, if_false, if_true]
    rw [if_neg hlen]
    simp only [List.cons_append, List.nil_append, List.getD_cons_zero, List.getD_cons_succ,
      List.drop_succ_cons, List.drop_zero]
  have e : str "bslf" = [98, 115, 108, 102] := rfl
  unfold unpack
  rw [e, if_neg (by decide)]
  simp only [unpackLoop, hb, hs, hl, hf]

theorem unpackclientsLoop_records (records : List PlayerRecord) (trailing : Str)
    (done : List Client) (hwf : ∀ r ∈ records, r.wellFormed) :
    unpackclientsLoop (encodeRecords records ++ trailing) done records.length
      = some (done ++ records.map PlayerRecord.client, none) := by
  induction records generalizing done with
  | nil => simp [unpackclientsLoop]
  | cons r rs ih =>
    have hr := hwf r (List.mem_cons_self _ _)
    have hrs : ∀ x ∈ rs, x.wellFormed := fun x hx => hwf x (List.mem_cons_of_mem _ hx)
    have e : encodeRecords (r :: rs) ++ trailing = r.encode ++ (encodeRecords rs ++ trailing) := by
      simp [encodeRecords]
    rw [e, List.length_cons, unpackclientsLoop, unpack_record r _ hr]
    simp only [List.getD_cons_succ, List.getD_cons_zero, Arg.str, Arg.int]
    rw [ih _ hrs]
    simp [PlayerRecord.client]

theorem decodeBytes_length (l : Str) :
    (decodeBytes l).length = l.length + l.countP (fun c => decide (128 ≤ c)) := by
  induction l with
  | nil => rfl
  | cons c t ih =>
    by_cases hc : c < 128
    · have h2 : ¬ (128 ≤ c) := by omega
      simp [decodeBytes, runeString, hc, h2, ih]
      omega
    · have h2 : 128 ≤ c := by omega
      simp [decodeBytes, runeString, hc, h2, ih]
      omega

theorem decodeBytes_eq_self_iff (l : Str) : decodeBytes l = l ↔ ∀ c ∈ l, c < 128 := by
  constructor
  · intro h
    have hl := decodeBytes_length l
    rw [h] at hl
    have h0 : l.countP (fun c => decide (128 ≤ c)) = 0 := by omega
    rw [List.countP_eq_zero] at h0
    intro c hc
    have := h0 c hc
    simpa using this
  · exact decodeBytes_ascii l

/-! ### What the parser, the router and the status decode do where they complete -/

/-- The rounds of `TrimSpace` are enough: what it returns does not end with a white space
rune, and what its first pass returns does not start with one. -/
theorem TrimSpace_rounds_enough (s : Str) :
    endsWithSpace (TrimSpace s) = false ∧
    startsWithSpace (trimLeftSpace s.length s) = false := by
  refine ⟨?_, trimLeftSpace_enough _ _ (Nat.le_refl _)⟩
  unfold TrimSpace
  exact trimRightSpaceRev_enough _ _ (by rw [List.length_reverse])

/-- The parser on the lines that do not make it panic: for a line ":" src " " command {" " arg} " :" trailing in which src,
command and each arg have no space, command and each arg are non-empty, no arg begins with
':', trailing does not end in white space and has no run of two spaces, and in which src has
no '@' before its first '!', the parser yields an Event with that src, cmd = command
lower-cased, those args, msg = trailing and raw = the line; and when src is n!u@h, with no
'!' or '@' in n and no '@' in u, nick = n, user = u and host = h. -/
theorem parseLine_wellformed (e : Env) (src command trailing : Str) (args : List Str)
    (hsrc : 32 ∉ src) (hcmd : command ≠ [] ∧ 32 ∉ command)
    (hargs : ∀ a ∈ args, a ≠ [] ∧ 32 ∉ a ∧ a.head? ≠ some 58)
    (hend : endsWithSpace trailing = false) (hrun : ¬ str "  " <:+: trailing)
    (hsafe : ∀ i j, Index src (str "!") = some i → Index src (str "@") = some j → i < j) :
    ∃ ev, parseLine e (chatLine src command args trailing) = some ev ∧
      ev.src = src ∧ ev.cmd = ToLower e command ∧ ev.args = args ∧ ev.msg = trailing ∧
      ev.raw = chatLine src command args trailing ∧
      (∀ n u h, 33 ∉ n → 64 ∉ n → 64 ∉ u → src = n ++ str "!" ++ u ++ str "@" ++ h →
        ev.nick = n ∧ ev.user = u ∧ ev.host = h) := by
  have hcol : collapseSpaces (chatLine src command args trailing)
      = chatLine src command args trailing :=
    collapseSpaces_chatLine src command args trailing hsrc hcmd
      (fun a ha => ⟨(hargs a ha).1, (hargs a ha).2.1⟩) hrun
  have hshape : chatLine src command args trailing
      = 58 :: (src ++ 32 :: command ++ spaced args ++ 32 :: 58 :: trailing) := by
    simp [chatLine]
  have hends : endsWithSpace (chatLine src command args trailing) = false := by
    have e1 : chatLine src command args trailing
        = (58 :: src ++ 32 :: command ++ spaced args ++ [32]) ++ 58 :: trailing := by
      simp [chatLine]
    rw [e1]
    exact endsWithSpace_after_colon _ _ hend
  have htrim : TrimSpace (chatLine src command args trailing)
      = chatLine src command args trailing := by
    rw [hshape] at hends ⊢
    exact TrimSpace_colon _ hends
  have hsplit : chatLine src command args trailing
      = 58 :: src ++ 32 :: (command ++ spaced args ++ 32 :: 58 :: trailing) := by
    simp [chatLine]
  obtain ⟨ev2, hu, u1, u2, u3, u4, u5⟩ := readUser_safe
    { cmd := [], msg := [], nick := [], user := [], host := [], src := src, args := [],
      raw := chatLine src command args trailing } hsafe
  have hparse : parseLine e (chatLine src command args trailing)
      = some (readCommand e ev2 (command ++ spaced args ++ 32 :: 58 :: trailing)) := by
    unfold parseLine
    simp only [hcol, htrim]
    have hh : (chatLine src command args trailing).head? = some 58 := by rw [hshape]; rfl
    rw [hh]
    simp only [if_true]
    rw [hsplit, readSource_prefix _ src _ hsrc]
    simp only [← hsplit]
    rw [hu]
  rw [hparse, readCommand_spaced e ev2 command args trailing hcmd.2 hargs u4]
  refine ⟨_, rfl, u1, rfl, rfl, rfl, u5, ?_⟩
  intro n u h hn1 hn2 hu2 hsrcEq
  have e0 : n ++ str "!" ++ u ++ str "@" ++ h = n ++ 33 :: (u ++ 64 :: h) := by simp [str]
  have hfull := readUser_full
    { cmd := [], msg := [], nick := [], user := [], host := [], src := src, args := [],
      raw := chatLine src command args trailing } n u h hn1 hn2 hu2 (hsrcEq.trans e0)
  rw [hu] at hfull
  have := Option.some.inj hfull
  subst this
  exact ⟨rfl, rfl, rfl⟩

/-- The parser on the line ":nick!user@host PRIVMSG #chan :hello", through the general
statement. -/
theorem parseLine_wellformed_witness :
    ∃ ev, parseLine env0 (chatLine (str "nick!user@host") (str "PRIVMSG") [str "#chan"]
        (str "hello")) = some ev ∧
      ev.cmd = str "privmsg" ∧ ev.args = [str "#chan"] ∧ ev.msg = str "hello" ∧
      ev.nick = str "nick" ∧ ev.user = str "user" ∧ ev.host = str "host" := by
  obtain ⟨ev, h1, _, h3, h4, h5, _, h7⟩ := parseLine_wellformed env0 (str "nick!user@host")
    (str "PRIVMSG") (str "hello") [str "#chan"] (by decide) (by decide) (by decide)
    (by decide) (by decide)
    (fun i j hi hj => by
      have a : Index (str "nick!user@host") (str "!") = some 4 := by decide
      have b : Index (str "nick!user@host") (str "@") = some 9 := by decide
      rw [a] at hi
      rw [b] at hj
      cases hi
      cases hj
      decide)
  obtain ⟨h8, h9, h10⟩ := h7 (str "nick") (str "user") (str "host") (by decide) (by decide)
    (by decide) (by decide)
  exact ⟨ev, h1, h3.trans (by decide), h4, h5, h8, h9, h10⟩

/-- The numeric lookup: the lookup in `num2cmd` needs a command of at least three bytes; the
commands "001", "353" and "366" get the names welcome, rpl_namreply and rpl_endofnames, and a
command whose first three bytes are none of these codes keeps its tag. -/
theorem numStep_spec (ev : Event) :
    (ev.cmd = str "001" → numStep ev = some { ev with cmd := str "welcome" }) ∧
    (ev.cmd = str "353" → numStep ev = some { ev with cmd := str "rpl_namreply" }) ∧
    (ev.cmd = str "366" → numStep ev = some { ev with cmd := str "rpl_endofnames" }) ∧
    (3 ≤ ev.cmd.length → ev.cmd.take 3 ∉ [str "001", str "353", str "366"] →
      numStep ev = some ev) ∧
    (ev.cmd.length < 3 → numStep ev = none) := by
  obtain ⟨cmd, msg, nick, user, host, src, args, raw⟩ := ev
  refine ⟨?_, ?_, ?_, ?_, ?_⟩
  · intro h
    simp only at h
    subst h
    rfl
  · intro h
    simp only at h
    subst h
    rfl
  · intro h
    simp only at h
    subst h
    rfl
  · intro hlen hnot
    simp only [List.mem_cons, List.mem_singleton, List.mem_nil_iff, or_false, not_or] at hnot
    simp only at hlen
    unfold numStep
    simp only [slice]
    rw [if_pos ⟨Nat.zero_le _, hlen⟩]
    simp only [List.drop_zero, num2cmd]
    rw [if_neg hnot.1, if_neg hnot.2.1, if_neg hnot.2.2]
  · intro hlen
    simp only at hlen
    unfold numStep
    simp only [slice]
    rw [if_neg (by omega)]

/-- The lookup at the command "privmsg": it keeps its tag. -/
theorem numStep_spec_witness :
    numStep { welcomeReply with cmd := str "privmsg" }
      = some { welcomeReply with cmd := str "privmsg" } :=
  (numStep_spec { welcomeReply with cmd := str "privmsg" }).2.2.2.1 (by decide) (by decide)

/-- The CTCP step where it completes: for an Event with cmd = "privmsg" whose msg begins with the byte 0x01
and whose stripped, lower-cased content has at least four bytes, the CTCP step replaces cmd
by that content, or by "ctcp-ping" when the content begins with "ping"; an Event with
cmd = "privmsg" whose msg is empty or begins with another byte keeps its cmd; and a CTCP
query whose content begins with "ping" is answered by the one line "NOTICE <nick> :<msg>",
so by no PONG. -/
theorem ctcpStep_spec (e : Env) (c : IRCconn) (ev : Event) (hcmd : ev.cmd = str "privmsg") :
    (ev.msg.head? = some 1 → 4 ≤ (ToLower e (Trim ev.msg 1)).length →
      ctcpStep e ev = some { ev with cmd := specCtcpTag (ToLower e (Trim ev.msg 1)) }) ∧
    (ev.msg.head? ≠ some 1 → ctcpStep e ev = some ev) ∧
    (ev.msg.head? = some 1 → (ToLower e (Trim ev.msg 1)).take 4 = str "ping" →
      handle e c ev
        = some (c.send (Send.out (str "NOTICE " ++ ev.nick ++ str " :" ++ ev.msg)))) := by
  have hne : ev.msg.head? = some 1 → ev.msg ≠ [] := by
    intro h hm
    rw [hm] at h
    cases h
  have hstep : ev.msg.head? = some 1 → 4 ≤ (ToLower e (Trim ev.msg 1)).length →
      ctcpStep e ev = some { ev with cmd := specCtcpTag (ToLower e (Trim ev.msg 1)) } := by
    intro h1 hlen
    unfold ctcpStep specCtcpTag
    rw [if_pos ⟨hcmd, hne h1, h1⟩]
    simp only [slice]
    rw [if_pos ⟨Nat.zero_le _, hlen⟩]
    simp only [List.drop_zero]
  refine ⟨hstep, ?_, ?_⟩
  · intro h1
    unfold ctcpStep
    rw [if_neg (fun h => h1 h.2.2)]
  · intro h1 hping
    have hlen : 4 ≤ (ToLower e (Trim ev.msg 1)).length := by
      have h4 : ((ToLower e (Trim ev.msg 1)).take 4).length = 4 := by rw [hping]; rfl
      rw [List.length_take] at h4
      omega
    unfold handle normalise
    rw [hstep h1 hlen, specCtcpTag, if_pos hping]
    rfl

/-- The CTCP step at the query "\x01PING 12\x01" from the nick n. -/
theorem ctcpStep_spec_witness :
    handle env0 conn0 pingQuery
      = some (conn0.send (Send.out (str "NOTICE " ++ pingQuery.nick ++ str " :" ++
          pingQuery.msg))) :=
  (ctcpStep_spec env0 conn0 pingQuery rfl).2.2 (by decide) (by decide)

/-- What the loop over `kvs` of `query` stores: after a response that starts with the
marker, a key k holds the token that follows the last token of the first payload line, the
final token apart, whose lower-cased form is k, keys and values alike; a key with no such
token keeps the value it had. -/
theorem query_stores_every_adjacent_pair (e : Env) (srv : QServer) (payload k : Str) :
    kvGet (QServer.query e srv (want ++ payload)).1.kv k
      = (storedAfter e (Split 92 ((Split 10 payload).headD [])) k).getD (kvGet srv.kv k) := by
  have hw : (want ++ payload).take want.length = want := List.take_left _ _
  have hd : (want ++ payload).drop want.length = payload := List.drop_left _ _
  have hl : ¬ ((want ++ payload).length < want.length ∨
      (want ++ payload).take want.length ≠ want) := by
    rw [hw]
    simp
  have hne : ¬ (Split 10 payload).length < 1 := by
    cases payload with
    | nil => decide
    | cons c t =>
      unfold Split
      by_cases hc : c = 10
      · rw [if_pos hc]
        simp
      · rw [if_neg hc]
        cases Split 10 t <;> simp
  unfold QServer.query
  simp only [hd]
  rw [if_neg hl, if_neg hne]
  by_cases h2 : (Split 10 payload).length < 2
  · rw [if_pos h2]
    exact kvLoop_stored e _ _ k
  · rw [if_neg h2]
    exact kvLoop_stored e _ _ k

/-- The status decode and the flag online: a call that fails leaves online = false; a call
that leaves online = true returned no error; after the marker, a payload with a newline
gives success with online = true, and a payload without newline gives success with
online = false. -/
theorem query_online_cases (e : Env) (srv : QServer) (r payload : Str) :
    ((QServer.query e srv r).2 ≠ none → (QServer.query e srv r).1.qonline = false) ∧
    ((QServer.query e srv r).1.qonline = true → (QServer.query e srv r).2 = none) ∧
    (10 ∈ payload → (QServer.query e srv (want ++ payload)).1.qonline = true ∧
      (QServer.query e srv (want ++ payload)).2 = none) ∧
    (10 ∉ payload → (QServer.query e srv (want ++ payload)).1.qonline = false ∧
      (QServer.query e srv (want ++ payload)).2 = none) := by
  have hcases : (QServer.query e srv r).2 = none ∨ (QServer.query e srv r).1.qonline = false := by
    unfold QServer.query
    simp only
    split_ifs
    · exact Or.inr rfl
    · exact Or.inr rfl
    · exact Or.inl rfl
    · exact Or.inl rfl
  refine ⟨fun h => hcases.resolve_left h, fun h => ?_, fun h => ?_, fun h => ?_⟩
  · rcases hcases with h1 | h1
    · exact h1
    · rw [h1] at h
      cases h
  · rw [query_marker, if_neg (by have := Split_length_of_mem 10 payload h; omega)]
    exact ⟨rfl, rfl⟩
  · rw [query_marker, if_pos (by rw [Split_nosep 10 payload h]; simp)]
    exact ⟨rfl, rfl⟩

/-- The string case of `unpack` panics exactly on a non-empty buffer without a zero byte:
after the loop `k` is `len(b)` and `b[k]` is out of range. -/
theorem unpackField_string_panics_iff (b s : Str) :
    unpackField 115 b (Arg.string s) = none ↔ b ≠ [] ∧ 0 ∉ b := by
  have hk : ∀ l : Str, l[(l.takeWhile fun y => y != 0).length]? = none ↔ 0 ∉ l := by
    intro l
    induction l with
    | nil => simp
    | cons c t ih =>
      by_cases hc : c = 0
      · subst hc
        simp
      · have hb : (c != 0) = true := by simpa using hc
        have hc2 : (c :: t).takeWhile (fun y => y != 0) = c :: t.takeWhile (fun y => y != 0) := by
          simp [List.takeWhile, hb]
        rw [hc2]
        simp only [List.length_cons, List.getElem?_cons_succ, ih, List.mem_cons, not_or]
        exact ⟨fun h => ⟨fun h0 => hc h0.symm, h⟩, fun h => h.2⟩
  unfold unpackField
  simp only [if_true]
  cases b with
  | nil => simp
  | cons c t =>
    have hl : ¬ ((c :: t).length < 1) := by simp
    rw [if_neg hl]
    cases hz : (c :: t)[((c :: t).takeWhile fun y => y != 0).length]? with
    | none =>
      simp only [true_iff]
      exact ⟨List.cons_ne_nil _ _, (hk _).1 hz⟩
    | some z =>
      simp only
      constructor
      · intro h
        split_ifs at h
      · intro h
        have := (hk _).2 h.2
        rw [hz] at this
        cases this

/-- A format without the letter s never makes `unpack` panic. -/
theorem unpackLoop_total_without_s (fmt : Str) (b : Str) (a : List Arg)
    (h : ∀ c ∈ fmt, c ≠ 115) : ∃ r, unpackLoop fmt b a = some r := by
  induction fmt generalizing b a with
  | nil => exact ⟨_, by unfold unpackLoop; rfl⟩
  | cons c fmt ih =>
    cases a with
    | nil => exact ⟨_, by unfold unpackLoop; rfl⟩
    | cons x a =>
      have hc : c ≠ 115 := h c (List.mem_cons_self _ _)
      have hf : ∃ r, unpackField c b x = some r := by
        unfold unpackField
        rw [if_neg hc]
        split_ifs <;> (cases x <;> (try dsimp only) <;> exact ⟨_, rfl⟩)
      obtain ⟨⟨b1, x1, e1⟩, hr⟩ := hf
      unfold unpackLoop
      rw [hr]
      cases e1 with
      | some err => exact ⟨_, rfl⟩
      | none =>
        obtain ⟨⟨b2, a2, e2⟩, hr2⟩ := ih b1 a (fun d hd => h d (List.mem_cons_of_mem _ hd))
        simp only [hr2]
        exact ⟨_, rfl⟩

/-- A private message that is no CTCP query (its text is empty or begins with another byte
than 0x01) is forwarded as it is: nothing is sent on out and the operator map is as
before. -/
theorem handle_plain_privmsg_forwards (e : Env) (c : IRCconn) (ev : Event)
    (hcmd : ev.cmd = str "privmsg") (hmsg : ev.msg.head? ≠ some 1) :
    handle e c ev = some (c.send (Send.event ev)) ∧
    (c.send (Send.event ev)).operators = c.operators := by
  have h1 := (ctcpStep_spec e c ev hcmd).2.1 hmsg
  refine ⟨?_, rfl⟩
  unfold handle normalise
  rw [h1]
  obtain ⟨cmd, msg, nick, user, host, src, args, raw⟩ := ev
  simp only at hcmd
  subst hcmd
  rfl

/-- A plain private message at the Event of the line ":n!u@h PRIVMSG #chan :hello". -/
theorem handle_plain_privmsg_forwards_witness :
    handle env0 conn0 { pingQuery with msg := str "hello" }
      = some (conn0.send (Send.event { pingQuery with msg := str "hello" })) :=
  (handle_plain_privmsg_forwards env0 conn0 { pingQuery with msg := str "hello" } rfl
    (by decide)).1

/-- The dispatch of an operator-only command after start-up, for an Event whose first
parameter has no '!' or no '@', as a channel name or a nick has: the function is run exactly
when the empty string is in the operator map, whoever the sender is; otherwise `sayusage`
sends the permission error to the nick of the sender. -/
theorem dispatch_op_command_looks_up_target (e : Env) (ops : List Str) (ev : Event)
    (botfn : Botfn) (target : Str) (rest : List Str)
    (hmsg : ev.msg.head? = some 33)
    (hcmd : botcmds (ToLower e ((Split 32 (ev.msg.drop 1)).headD [])) = some botfn)
    (hop : botfn.op = true) (hargs : ev.args = target :: rest)
    (htarget : 33 ∉ target ∨ 64 ∉ target) :
    ([] ∈ ops → dispatch e false ops ev
      = some (Outcome.ran botfn.fn target ev.src ((Split 32 (ev.msg.drop 1)).drop 1) botfn.save)) ∧
    ([] ∉ ops → dispatch e false ops ev
      = (sayusage target ev.src ErrPermission).map Outcome.denied) := by
  have his : isopped ops target ev.src = some (decide ([] ∈ ops)) := by
    rw [isopped, splituserstring_bare target htarget]
  have hcond : botfn.op = true ∧ True := ⟨hop, trivial⟩
  constructor
  · intro hin
    unfold dispatch
    rw [hmsg]
    simp only [ne_eq, not_true_eq_false, if_false, hcmd, hargs, List.head?_cons]
    rw [if_pos hcond, his]
    simp only [hin, decide_True]
  · intro hnot
    unfold dispatch
    rw [hmsg]
    simp only [ne_eq, not_true_eq_false, if_false, hcmd, hargs, List.head?_cons]
    rw [if_pos hcond, his]
    simp only [hnot, decide_False]
    cases sayusage target ev.src ErrPermission <;> rfl

/-- The dispatch of "!motd hello" sent to #chan, on the operator map that holds alice. -/
theorem dispatch_op_command_looks_up_target_witness :
    dispatch env0 false [str "alice"] motdCommand
      = (sayusage (str "#chan") motdCommand.src ErrPermission).map Outcome.denied :=
  (dispatch_op_command_looks_up_target env0 [str "alice"] motdCommand
    ⟨str "setmotd", true, true⟩ (str "#chan") [] (by decide) (by decide) rfl rfl
    (Or.inl (by decide))).2 (by decide)

/-- The string case of `unpack` on a buffer whose first zero byte is at the end of `name`:
it returns the bytes after that zero byte, and as the string every byte of `name` written
as a code point in UTF-8; that string is `name` exactly when every byte of `name` is below
0x80. -/
theorem unpack_string_decodes (name rest s : Str) (h : ∀ c ∈ name, c ≠ 0) :
    unpack (str "s") (name ++ 0 :: rest) [Arg.string s]
      = some (rest, [Arg.string (decodeBytes name)], none) ∧
    (decodeBytes name = name ↔ ∀ c ∈ name, c < 128) ∧
    (decodeBytes name).length = name.length + name.countP (fun c => decide (128 ≤ c)) := by
  refine ⟨?_, decodeBytes_eq_self_iff name, decodeBytes_length name⟩
  have e : str "s" = [115] := rfl
  unfold unpack
  rw [e, if_neg (by simp)]
  simp only [unpackLoop, unpackField_string name rest s h]

/-- The string case of `unpack` on the name "Bob" followed by its zero byte and one more
byte. -/
theorem unpack_string_decodes_witness :
    unpack (str "s") (str "Bob" ++ 0 :: [7]) [Arg.string []]
      = some ([7], [Arg.string (decodeBytes (str "Bob"))], none) :=
  (unpack_string_decodes (str "Bob") [7] [] (by decide)).1

/-! ### The claims -/

/-- C1, at the line ":a@b!c PRIVMSG #chan :hello": src, command and the argument are
non-empty and without space, yet the parser yields no Event, because with '@' before '!'
the slice `ev.src[i+1:j]` is out of range. The line of the claim's example,
":nick!user@host PRIVMSG #chan :hello", is parsed as the claim says. -/
theorem parseLine_at_before_bang_panics (e : Env) :
    chatLine (str "a@b!c") (str "PRIVMSG") [str "#chan"] (str "hello")
      = str ":a@b!c PRIVMSG #chan :hello" ∧
    parseLine e (str ":a@b!c PRIVMSG #chan :hello") = none ∧
    (parseLine e (str ":nick!user@host PRIVMSG #chan :hello")).map
        (fun ev => (ev.nick, ev.user, ev.host, ev.cmd, ev.args, ev.msg))
      = some (str "nick", str "user", str "host", str "privmsg", [str "#chan"], str "hello") :=
  ⟨rfl, rfl, rfl⟩

/-- C2, at the five kinds of line it names: an empty line, a line of spaces, a prefix with
'@' before '!', a command of two bytes, a CTCP query of two bytes and a MODE line without
arguments. On each of them one round of the reader does not complete: the Go code panics on
an index or a slice out of range. -/
theorem readLine_malformed_panics (e : Env) (c : IRCconn) :
    readLine e c (str "") = none ∧
    readLine e c (str "   ") = none ∧
    readLine e c (str ":a@b!c PRIVMSG #chan :hi") = none ∧
    readLine e c (str ":srv OK") = none ∧
    readLine e c (str ":n!u@h PRIVMSG #chan :\x01hi\x01") = none ∧
    readLine e c (str ":n!u@h MODE") = none :=
  ⟨rfl, rfl, rfl, rfl, rfl, rfl⟩

/-- C3 fails for a bare nick: after the names reply "@alice +bob carol" on an empty
membership alice is in the membership, yet isopped("alice") is false, because
`splituserstring` gives the empty nick for a string without '!' and '@'. -/
theorem isopped_bare_nick_false :
    str "alice" ∈ processnames [] (str "@alice +bob carol") ∧
    isopped (processnames [] (str "@alice +bob carol")) (str "alice") (str "#chan")
      = some false := by
  decide

/-- C3 as amended: isopped(u, ch) is true exactly when the nick that `splituserstring` takes
from u is in the membership, whatever ch is. For u = n!user@host, with no '!' or '@' in n and
no '@' in user, that nick is n; for a u without '!' or without '@', such as a bare nick, it
is the empty string. After the names reply "@alice +bob carol" on an empty membership
isopped is true for "alice!u@h" and false for "bob!u@h", "carol!u@h" and the bare "alice". -/
theorem isopped_nick_of_userstring (ops : List Str) (n u h s ch : Str)
    (hn1 : 33 ∉ n) (hn2 : 64 ∉ n) (hu : 64 ∉ u) (hs : 33 ∉ s ∨ 64 ∉ s) :
    isopped ops (n ++ str "!" ++ u ++ str "@" ++ h) ch = some (decide (n ∈ ops)) ∧
    isopped ops s ch = some (decide ([] ∈ ops)) ∧
    isopped (processnames [] (str "@alice +bob carol")) (str "alice!u@h") ch = some true ∧
    isopped (processnames [] (str "@alice +bob carol")) (str "bob!u@h") ch = some false ∧
    isopped (processnames [] (str "@alice +bob carol")) (str "carol!u@h") ch = some false ∧
    isopped (processnames [] (str "@alice +bob carol")) (str "alice") ch = some false := by
  refine ⟨?_, ?_, rfl, rfl, rfl, rfl⟩
  · have e : n ++ str "!" ++ u ++ str "@" ++ h = n ++ 33 :: (u ++ 64 :: h) := by
      simp [str]
    rw [e, isopped, splituserstring_full n u h hn1 hn2 hu]
  · rw [isopped, splituserstring_bare s hs]

/-- C3 as amended, at the operator dave: "dave!d@example.org" is an operator, the bare
"dave" is not. -/
theorem isopped_nick_of_userstring_witness :
    isopped [str "dave"] (str "dave" ++ str "!" ++ str "d" ++ str "@" ++ str "example.org")
        (str "#chan") = some (decide (str "dave" ∈ [str "dave"])) ∧
    isopped [str "dave"] (str "dave") (str "#chan")
        = some (decide (([] : Str) ∈ [str "dave"])) := by
  have h := isopped_nick_of_userstring [str "dave"] (str "dave") (str "d") (str "example.org")
    (str "dave") (str "#chan") (by decide) (by decide) (by decide) (Or.inl (by decide))
  exact ⟨h.1, h.2.1⟩

/-- C4, at the command token "001x": it has four bytes and is no three-digit code, yet the
router takes its first three bytes as the key, so the tag becomes "welcome", a NAMES query
is sent and the Event is forwarded with cmd = "welcome". The unmapped numeric "999" keeps
its tag. -/
theorem numStep_remaps_on_prefix (e : Env) :
    (readLine e conn0 (str ":srv 001x me :hi")).map
        (fun c => (c.out, c.Events.map fun ev => ev.cmd))
      = some ([str "NAMES " ++ e.channel], [str "welcome"]) ∧
    (readLine e conn0 (str ":srv 999 me :hi")).map
        (fun c => (c.out, c.Events.map fun ev => ev.cmd))
      = some ([], [str "999"]) :=
  ⟨rfl, rfl⟩

/-- C5: when `handle` completes, the Event as it stands after the CTCP and the numeric
rewriting is sent on Events exactly when its tag is none of the ten internal tags
(rpl_namreply, mode, nick, part, quit, ping, version, time, ctcp-ping, finger), and for
these nothing is sent on Events; for the tag welcome the sends are first the line
"NAMES <channel>" on out and then the Event on Events. -/
theorem handle_forwards_unless_internal (e : Env) (c c' : IRCconn) (ev : Event)
    (h : handle e c ev = some c') :
    ∃ ev2, normalise e ev = some ev2 ∧
      (c'.Events = c.Events ++ [ev2] ↔ ev2.cmd ∉ internalTags) ∧
      (ev2.cmd ∈ internalTags → c'.Events = c.Events) ∧
      (ev2.cmd = str "welcome" →
        c'.sends = c.sends ++ [Send.out (str "NAMES " ++ e.channel), Send.event ev2]) := by
  unfold handle at h
  cases hn : normalise e ev with
  | none => rw [hn] at h; cases h
  | some ev2 =>
    rw [hn] at h
    obtain ⟨h1, h2, h3⟩ := route_events e c c' ev2 h
    refine ⟨ev2, rfl, ⟨fun heq hi => ?_, h1⟩, h2, h3⟩
    have := (h2 hi).symm.trans heq
    simp at this

/-- C5 at the line ":srv 001 me :Welcome" on a fresh connection: NAMES is sent, then the
Event is forwarded. -/
theorem handle_forwards_unless_internal_witness :
    ∃ ev2, normalise env0 welcomeReply = some ev2 ∧
      ((conn0.send (Send.out (str "NAMES #pkup"))).send
          (Send.event { welcomeReply with cmd := str "welcome" })).sends
        = conn0.sends ++ [Send.out (str "NAMES " ++ env0.channel), Send.event ev2] := by
  obtain ⟨ev2, h1, _, _, h4⟩ := handle_forwards_unless_internal env0 conn0
    ((conn0.send (Send.out (str "NAMES #pkup"))).send
      (Send.event { welcomeReply with cmd := str "welcome" })) welcomeReply (by decide)
  have h5 : some ev2 = some { welcomeReply with cmd := str "welcome" } :=
    h1.symm.trans (by decide)
  exact ⟨ev2, h1, h4 (by rw [Option.some.inj h5])⟩

/-- C6, at a private message whose CTCP content "hi" has fewer than four bytes: `handle`
does not complete (the slice `ev.cmd[0:4]` is out of range), so cmd is not replaced by
"hi". At the CTCP content "001x" the tag that is routed is "welcome", not the content. -/
theorem handle_short_ctcp_panics (e : Env) (c : IRCconn) (ev : Event) :
    handle e c { ev with cmd := str "privmsg", msg := [1] ++ str "hi" ++ [1] } = none ∧
    (normalise e { ev with cmd := str "privmsg", msg := [1] ++ str "001x" ++ [1] }).map
        (fun ev2 => ev2.cmd) = some (str "welcome") :=
  ⟨rfl, rfl⟩

/-- C7 fails for a bare nick of one byte: x is tracked as operator, the names reply "x"
lists x without '@', and x is an operator afterwards all the same, because `processnames`
skips every token shorter than two bytes. -/
theorem processnames_keeps_short_bare_nick :
    processnames [str "x"] (unwords [str "x"]) = [str "x"] ∧
    (str "x").head? ≠ some 64 ∧ specNameOf (str "x") = str "x" ∧
    str "x" ∈ processnames [str "x"] (unwords [str "x"]) := by
  decide

/-- C7 as amended: for a names reply made of space-separated tokens that name pairwise
distinct non-empty nicks, after `processnames` every nick listed with an '@' prefix is in the
membership; every nick listed without '@' by a token of at least two bytes (a bare nick of
two or more bytes, or a nick behind a '+' prefix) is not in the membership, even if it was
before; a token of fewer than two bytes is skipped, so the nick it names keeps its
membership; and the membership of every nick that is not listed is unchanged. -/
theorem processnames_membership (ops : List Str) (tokens : List Str)
    (hsp : ∀ t ∈ tokens, 32 ∉ t)
    (hne : ∀ t ∈ tokens, specNameOf t ≠ [])
    (hnodup : (tokens.map specNameOf).Nodup) :
    (∀ t ∈ tokens, t.head? = some 64 →
      specNameOf t ∈ processnames ops (unwords tokens)) ∧
    (∀ t ∈ tokens, t.head? ≠ some 64 → 2 ≤ t.length →
      specNameOf t ∉ processnames ops (unwords tokens)) ∧
    (∀ t ∈ tokens, t.length < 2 →
      (specNameOf t ∈ processnames ops (unwords tokens) ↔ specNameOf t ∈ ops)) ∧
    (∀ n, n ∉ tokens.map specNameOf →
      (n ∈ processnames ops (unwords tokens) ↔ n ∈ ops)) := by
  rw [processnames_unwords ops tokens hsp]
  obtain ⟨h1, h2, h3⟩ := foldl_namesStep_spec tokens ops hnodup
  refine ⟨?_, h2, h3, ?_⟩
  · intro t ht h64
    refine h1 t ht h64 ?_
    have hn := hne t ht
    unfold specNameOf at hn
    rw [if_pos (Or.inl h64)] at hn
    cases t with
    | nil => exact absurd rfl hn
    | cons a r =>
      cases r with
      | nil => exact absurd rfl hn
      | cons b r2 => simp
  · intro n hn
    refine foldl_namesStep_other tokens ops n ?_
    intro t ht heq
    exact hn (heq ▸ List.mem_map_of_mem _ ht)

/-- C7 as amended, at the names reply "@alice +bob carol x" on the membership
{bob, carol, x, zed}: alice is in, bob and carol are out, x and zed stay. -/
theorem processnames_membership_witness :
    specNameOf (str "@alice") ∈ processnames [str "bob", str "carol", str "x", str "zed"]
      (unwords [str "@alice", str "+bob", str "carol", str "x"]) ∧
    specNameOf (str "+bob") ∉ processnames [str "bob", str "carol", str "x", str "zed"]
      (unwords [str "@alice", str "+bob", str "carol", str "x"]) ∧
    (str "zed" ∈ processnames [str "bob", str "carol", str "x", str "zed"]
      (unwords [str "@alice", str "+bob", str "carol", str "x"])
      ↔ str "zed" ∈ [str "bob", str "carol", str "x", str "zed"]) := by
  have h := processnames_membership [str "bob", str "carol", str "x", str "zed"]
    [str "@alice", str "+bob", str "carol", str "x"] (by decide) (by decide) (by decide)
  exact ⟨h.1 _ (by decide) (by decide), h.2.1 _ (by decide) (by decide) (by decide),
    h.2.2.2 _ (by decide)⟩

/-- C8: on args made of a target, then (flag, nick) pairs, then at most one unpaired token,
`processmode` completes and its result is the pairs applied left to right, where "+o"
inserts the nick, "-o" removes it and any other flag changes nothing. ["#chan","+o","dave"]
makes dave an operator and a following ["#chan","-o","dave"] clears it, the membership of
every other nick being as before. `handle` of an Event with cmd = "mode" runs `processmode`
on the Event's args and sends nothing. -/
theorem processmode_applies_pairs (ops : List Str) (target : Str) (pairs : List (Str × Str))
    (trailing : List Str) (h : trailing.length ≤ 1) :
    processmode ops (target :: (flattenPairs pairs ++ trailing))
      = some (pairs.foldl specApplyMode ops) ∧
    (∀ (m : List Str) (p : Str × Str) (x : Str),
      (p.1 = str "+o" → (x ∈ specApplyMode m p ↔ x = p.2 ∨ x ∈ m)) ∧
      (p.1 = str "-o" → (x ∈ specApplyMode m p ↔ x ∈ m ∧ x ≠ p.2)) ∧
      (p.1 ≠ str "+o" → p.1 ≠ str "-o" → specApplyMode m p = m)) ∧
    (∃ ops1 ops2,
      processmode ops [str "#chan", str "+o", str "dave"] = some ops1 ∧
      str "dave" ∈ ops1 ∧
      processmode ops1 [str "#chan", str "-o", str "dave"] = some ops2 ∧
      str "dave" ∉ ops2 ∧
      ∀ x, x ≠ str "dave" → ((x ∈ ops1 ↔ x ∈ ops) ∧ (x ∈ ops2 ↔ x ∈ ops))) ∧
    (∀ (e : Env) (c : IRCconn) (ev : Event), ev.cmd = str "mode" →
      handle e c ev
        = (processmode c.operators ev.args).map fun m => { c with operators := m }) := by
  refine ⟨?_, ?_, ?_, ?_⟩
  · simp only [processmode, sliceFrom, List.length_cons, List.drop_succ_cons, List.drop_zero]
    rw [if_pos (by omega)]
    simp only [modeLoop_pairs pairs trailing h ops]
  · intro m p x
    refine ⟨?_, ?_, ?_⟩
    · intro hp
      simp only [specApplyMode, hp, if_true, mem_opInsert]
    · intro hp
      have hne : ¬ (str "-o" = str "+o") := by decide
      simp only [specApplyMode, hp, hne, if_false, if_true, mem_opDelete]
    · intro h1 h2
      simp only [specApplyMode, h1, h2, if_false]
  · refine ⟨opInsert ops (str "dave"), opDelete (opInsert ops (str "dave")) (str "dave"),
      rfl, ?_, rfl, ?_, ?_⟩
    · simp [mem_opInsert]
    · simp [mem_opDelete]
    · intro x hx
      simp [mem_opInsert, mem_opDelete, hx]
  · intro e c ev hcmd
    obtain ⟨cmd, msg, nick, user, host, src, args, raw⟩ := ev
    simp only at hcmd
    subst hcmd
    rfl

/-- C8 at concrete args: target, two pairs and one unpaired token. -/
theorem processmode_applies_pairs_witness :
    processmode [str "eve"] [str "#chan", str "+o", str "dave", str "-o", str "eve", str "+v"]
      = some [str "dave"] := by
  have h := (processmode_applies_pairs [str "eve"] (str "#chan")
    [(str "+o", str "dave"), (str "-o", str "eve")] [str "+v"] (by decide)).1
  exact h.trans (by decide)

/-- C10, at the status line \mapname\q3dm6\sv_hostname\mapname\g_gametype\4 : the key
mapname occurs once, paired with q3dm6, but the loop also stores every value with the key
after it, so the later value "mapname" overwrites the entry and mapname() is "g_gametype".
With the odd trailing token of \mapname\q3dm6\x the token is stored under the key q3dm6.
On the line \mapname\q3dm6\sv_maxclients\16 of the claim's example mapname() is "q3dm6" and
maxclients() is 16. -/
theorem query_pairs_values_with_keys (e : Env) :
    ((QServer.query e qserver0
        (want ++ str "\\mapname\\q3dm6\\sv_hostname\\mapname\\g_gametype\\4\n")).1.mapname
      = str "g_gametype") ∧
    ((QServer.query e qserver0
        (want ++ str "\\mapname\\q3dm6\\sv_hostname\\mapname\\g_gametype\\4\n")).2 = none) ∧
    (kvGet (QServer.query e qserver0 (want ++ str "\\mapname\\q3dm6\\x\n")).1.kv (str "q3dm6")
      = str "x") ∧
    ((QServer.query e qserver0
        (want ++ str "\\mapname\\q3dm6\\sv_maxclients\\16\n10 5 \"Bob\"")).1.mapname
      = str "q3dm6") ∧
    ((QServer.query e qserver0
        (want ++ str "\\mapname\\q3dm6\\sv_maxclients\\16\n10 5 \"Bob\"")).1.maxclients = 16) :=
  ⟨rfl, rfl, rfl, rfl, rfl⟩
/-- C11 fails for a token 0 that writes an integer outside the 64-bit `int`: the player
line 99999999999999999999 5 "Bob" decodes without error, token 0 writes the integer
99999999999999999999, and the score is 9223372036854775807. It fails as well for a token 0
that is not an integer but whose leading digits already pass 18446744073709551615: the
player line 99999999999999999999x 5 "Bob" decodes without error, token 0 is not an integer,
and the score is 9223372036854775807, not 0. -/
theorem query_score_out_of_range :
    specDecimal (str "99999999999999999999") = some 99999999999999999999 ∧
    (QServer.query env0 qserver0
        (want ++ str "\\a\\b\n99999999999999999999 5 \"Bob\"")).2 = none ∧
    (QServer.query env0 qserver0
        (want ++ str "\\a\\b\n99999999999999999999 5 \"Bob\"")).1.qclients
      = [Client.mk (str "Bob") 9223372036854775807] ∧
    specDecimal (str "99999999999999999999x") = none ∧
    (QServer.query env0 qserver0
        (want ++ str "\\a\\b\n99999999999999999999x 5 \"Bob\"")).2 = none ∧
    (QServer.query env0 qserver0
        (want ++ str "\\a\\b\n99999999999999999999x 5 \"Bob\"")).1.qclients
      = [Client.mk (str "Bob") 9223372036854775807] := by
  decide

/-- C11 as amended: for a status response that starts with the marker and has a player
section (a newline in the payload), the decode returns no error and the client list
afterwards is exactly one ClientInfo, in wire order, for each line after the first that has
at least 3 space-separated tokens; its name is token 2 with the double quotes around it
stripped; its score is the integer that token 0 writes when that integer is in the range of
the 64-bit `int`, and the nearest bound of that range when the integer is outside it; when
token 0 is not an integer the score is 0, except that a token whose leading digits, after an
optional sign, already write a value above 18446744073709551615 gives that same bound
(9223372036854775807, or -9223372036854775808 after a minus sign). The single player line
10 5 "Bob" gives one ClientInfo with name Bob and score 10; the lines 12x 5 "Bob" and
-99999999999999999999x 5 "Bob" give the scores 0 and -9223372036854775808. -/
theorem query_replaces_clients (e : Env) (srv : QServer) (payload : Str)
    (h : 10 ∈ payload) :
    (QServer.query e srv (want ++ payload)).2 = none ∧
    (QServer.query e srv (want ++ payload)).1.qclients
      = ((Split 10 payload).drop 1).filterMap specClient ∧
    (∀ line, (Split 32 line).length < 3 → specClient line = none) ∧
    (∀ line, 3 ≤ (Split 32 line).length → ∃ c, specClient line = some c ∧
      c.name = Trim ((Split 32 line).getD 2 []) 34 ∧
      c.score = specScore ((Split 32 line).headD [])) ∧
    (∀ tok, specDecimal tok = none → specLeadingValue tok ≤ 18446744073709551615 →
      specScore tok = 0) ∧
    (∀ tok, specDecimal tok = none → 18446744073709551615 < specLeadingValue tok →
      tok.head? ≠ some 45 → specScore tok = 9223372036854775807) ∧
    (∀ tok, specDecimal tok = none → 18446744073709551615 < specLeadingValue tok →
      tok.head? = some 45 → specScore tok = -9223372036854775808) ∧
    (∀ tok v, specDecimal tok = some v → -9223372036854775808 ≤ v →
      v ≤ 9223372036854775807 → specScore tok = v) ∧
    (∀ tok v, specDecimal tok = some v → 9223372036854775807 < v →
      specScore tok = 9223372036854775807) ∧
    (∀ tok v, specDecimal tok = some v → v < -9223372036854775808 →
      specScore tok = -9223372036854775808) ∧
    (QServer.query e srv (want ++ str "\\mapname\\q3dm6\n10 5 \"Bob\"")).1.qclients
      = [Client.mk (str "Bob") 10] ∧
    (QServer.query e srv (want ++ str "\\mapname\\q3dm6\n12x 5 \"Bob\"")).1.qclients
      = [Client.mk (str "Bob") 0] ∧
    (QServer.query e srv
        (want ++ str "\\mapname\\q3dm6\n-99999999999999999999x 5 \"Bob\"")).1.qclients
      = [Client.mk (str "Bob") (-9223372036854775808)] := by
  have hlen : ¬ (Split 10 payload).length < 2 := by
    have := Split_length_of_mem 10 payload h
    omega
  refine ⟨?_, ?_, ?_, ?_, ?_, ?_, ?_, ?_, ?_, ?_, rfl, rfl, rfl⟩
  · rw [query_marker, if_neg hlen]
  · rw [query_marker, if_neg hlen]
    simp only [clientLoop_eq, List.nil_append]
  · intro line hl
    unfold specClient
    rw [if_neg (by omega)]
  · intro line hl
    unfold specClient
    rw [if_pos hl]
    exact ⟨_, rfl, rfl, rfl⟩
  · intro tok ht h1
    unfold specScore
    rw [ht]
    simp only
    rw [if_neg (by omega)]
  · intro tok ht h1 h2
    unfold specScore
    rw [ht]
    simp only
    rw [if_pos h1, if_neg h2]
  · intro tok ht h1 h2
    unfold specScore
    rw [ht]
    simp only
    rw [if_pos h1, if_pos h2]
  · intro tok v ht h1 h2
    unfold specScore
    rw [ht]
    simp only
    rw [if_neg (by omega), if_neg (by omega)]
  · intro tok v ht h1
    unfold specScore
    rw [ht]
    simp only
    rw [if_neg (by omega), if_pos (by omega)]
  · intro tok v ht h1
    unfold specScore
    rw [ht]
    simp only
    rw [if_pos h1]

/-- C11 as amended, at a response with two player lines and one line of two tokens. -/
theorem query_replaces_clients_witness :
    (QServer.query env0 qserver0
        (want ++ str "\\mapname\\q3dm6\n10 5 \"Bob\"\n7 3\n-2 40 \"Al\"")).1.qclients
      = [Client.mk (str "Bob") 10, Client.mk (str "Al") (-2)] := by
  have h := (query_replaces_clients env0 qserver0
    (str "\\mapname\\q3dm6\n10 5 \"Bob\"\n7 3\n-2 40 \"Al\"") (by decide)).2.1
  exact h.trans (by decide)

/-- C12: a response that does not begin with the 19 bytes 0xFF 0xFF 0xFF 0xFF
"statusResponse\n", and so every response of fewer than 19 bytes, makes the decode return
the "bad response" error with online = false and with the key/value map and the client list
as they were before the call. -/
theorem query_rejects_bad_marker (e : Env) (srv : QServer) (r : Str) (h : ¬ want <+: r) :
    want = [255, 255, 255, 255] ++ str "statusResponse\n" ∧ want.length = 19 ∧
    QServer.query e srv r
      = ({ kv := srv.kv, qclients := srv.qclients, qonline := false },
         some QueryError.badResponse) ∧
    (∀ r2 : Str, r2.length < 19 → QServer.query e srv r2
      = ({ kv := srv.kv, qclients := srv.qclients, qonline := false },
         some QueryError.badResponse)) := by
  refine ⟨rfl, rfl, ?_, ?_⟩
  · unfold QServer.query
    simp only
    have hc : r.length < want.length ∨ r.take want.length ≠ want := by
      by_contra hn
      rw [not_or, not_not] at hn
      exact h (List.prefix_iff_eq_take.2 hn.2.symm)
    rw [if_pos hc]
  · intro r2 h2
    unfold QServer.query
    simp only
    have hw : want.length = 19 := rfl
    rw [if_pos (Or.inl (by omega))]

/-- C12 at a response that carries the marker of a different reply. -/
theorem query_rejects_bad_marker_witness :
    QServer.query env0 { kv := [(str "mapname", str "q3dm6")], qclients := [], qonline := true }
        ([255, 255, 255, 255] ++ str "infoResponse\n\\mapname\\q3dm17")
      = ({ kv := [(str "mapname", str "q3dm6")], qclients := [], qonline := false },
         some QueryError.badResponse) :=
  (query_rejects_bad_marker env0
    { kv := [(str "mapname", str "q3dm6")], qclients := [], qonline := true }
    ([255, 255, 255, 255] ++ str "infoResponse\n\\mapname\\q3dm17") (by decide)).2.2.1

/-- C13, at a response with the marker and the key/value line \mapname\q3dm6 but no newline
after it: the decode stores the pair and returns no error, yet it returns before the
statement that sets online, so online is false after a call that succeeded. -/
theorem query_success_leaves_offline (e : Env) (srv : QServer) :
    (QServer.query e srv (want ++ str "\\mapname\\q3dm6")).2 = none ∧
    (QServer.query e srv (want ++ str "\\mapname\\q3dm6")).1.qonline = false ∧
    (QServer.query e srv (want ++ str "\\mapname\\q3dm6")).1.mapname = str "q3dm6" :=
  ⟨rfl, rfl, rfl⟩

/-- C14, at the format "s" on the one-byte buffer "A", which has no zero byte: `unpack`
returns nothing, because after the scan `b[k]` is read at `k = len(b)`, past the end of the
buffer; the same happens to the name of a player record. On an empty buffer and on a buffer
shorter than a fixed-width field `unpack` returns `ErrShort`. -/
theorem unpack_unterminated_string_panics :
    unpack (str "s") (str "A") [Arg.string []] = none ∧
    unpack (str "bslf") (1 :: str "Bob") [Arg.byte 0, Arg.string [], Arg.int32 0, Arg.float32 0]
      = none ∧
    unpack (str "s") [] [Arg.string []]
      = some ([], [Arg.string []], some ReflexError.ErrShort) ∧
    unpack (str "l") [1, 2, 3] [Arg.int32 0]
      = some ([1, 2, 3], [Arg.int32 0], some ReflexError.ErrShort) :=
  ⟨rfl, rfl, rfl, rfl⟩

/-- C15 fails for p = 65535: after the flags byte 0x80 the two bytes 0xFF 0xFF are p mod 256
and p div 256, `unpackEDF` yields the port -1, and after the info phase port() is "-1", not
the decimal string "65535" of p. -/
theorem unpackEDF_port_negative :
    (65535 % 256 = 0xFF ∧ 65535 / 256 = 0xFF) ∧
    unpackEDF [0x80, 0xFF, 0xFF] 0 [] = some ([], -1, [], none) ∧
    (infoPhase rserver0 (infoHead ++ [0x80, 0xFF, 0xFF])).map (fun r => r.1.port)
      = some (str "-1") ∧
    Itoa 65535 = str "65535" := by
  decide

/-- C15 as amended: for p with 0 <= p <= 65535 and an extra-data section whose flags byte
has bit 0x80 set and is followed by the bytes p mod 256 and p div 256, whenever `unpackEDF`
returns, the port it yields is p read as a signed 16-bit integer: p for p <= 32767 and
p - 65536 for p >= 32768; with neither bit 0x10 nor bit 0x40 set it returns the rest of the
buffer and no error; and when the fixed part of an info response decodes up to such a
section, port() is the decimal string of that signed value. -/
theorem unpackEDF_recovers_signed_port (p edf : Nat) (rest : Str) (port0 : Int) (tv0 : Str)
    (hp : p < 65536) (hedf : edf &&& 0x80 ≠ 0) :
    (∀ b1 port1 tv1 err,
      unpackEDF (edf :: p % 256 :: p / 256 :: rest) port0 tv0 = some (b1, port1, tv1, err) →
      port1 = asSigned 16 p) ∧
    (edf &&& 0x10 = 0 → edf &&& 0x40 = 0 →
      unpackEDF (edf :: p % 256 :: p / 256 :: rest) port0 tv0
        = some (rest, asSigned 16 p, tv0, none)) ∧
    (p < 32768 → asSigned 16 p = (p : Int)) ∧
    (32768 ≤ p → asSigned 16 p = (p : Int) - 65536) ∧
    (∀ (srv : ReflexServer) (info : Str) (a : List Arg) (srv1 : ReflexServer)
        (err : Option ReflexError),
      6 ≤ (info.take bufLen).length →
      unpack (str "ssssSbbbbbbbs") ((info.take bufLen).drop 6)
          (infoArgs { srv with ronline := false })
        = some (edf :: p % 256 :: p / 256 :: rest, a, none) →
      infoPhase srv info = some (srv1, err) →
      srv1.port = Itoa (asSigned 16 p)) := by
  refine ⟨fun b1 port1 tv1 err h => unpackEDF_port_value p edf rest port0 tv0 hedf _ _ _ _ h,
    ?_, (asSigned16_cases p hp).1, (asSigned16_cases p hp).2, ?_⟩
  · intro h10 h40
    unfold unpackEDF
    rw [if_neg (by simp)]
    simp only [List.getD_cons_zero, List.drop_succ_cons, List.drop_zero]
    rw [if_pos hedf, unpack_S, lor_bytes16]
    simp only [h10, h40, ne_eq, not_true_eq_false, false_and, if_false, List.getD_cons_zero,
      Arg.int]
  · intro srv info a srv1 err h6 hfix h
    unfold infoPhase at h
    simp only at h
    rw [if_neg (by decide), if_neg (by omega), hfix] at h
    simp only at h
    cases hU : unpackEDF (edf :: p % 256 :: p / 256 :: rest) 0
        (storeInfo { srv with ronline := false } a).tv with
    | none => rw [hU] at h; cases h
    | some r =>
      obtain ⟨b1, port1, tv1, e1⟩ := r
      rw [hU] at h
      simp only [Option.some.injEq, Prod.mk.injEq] at h
      have hp1 := unpackEDF_port_value p edf rest 0 _ hedf _ _ _ _ hU
      rw [← h.1, ← hp1]
      rfl

/-- C15 as amended, at p = 25787 and at p = 40000 after the flags byte 0x80. -/
theorem unpackEDF_recovers_signed_port_witness :
    unpackEDF (0x80 :: 25787 % 256 :: 25787 / 256 :: []) 0 [] = some ([], 25787, [], none) ∧
    unpackEDF (0x80 :: 40000 % 256 :: 40000 / 256 :: []) 0 []
      = some ([], 40000 - 65536, [], none) := by
  have h1 := unpackEDF_recovers_signed_port 25787 0x80 [] 0 [] (by decide) (by decide)
  have h2 := unpackEDF_recovers_signed_port 40000 0x80 [] 0 [] (by decide) (by decide)
  refine ⟨?_, ?_⟩
  · rw [h1.2.1 (by decide) (by decide), h1.2.2.1 (by decide)]
    rfl
  · rw [h2.2.1 (by decide) (by decide), h2.2.2.2.1 (by decide)]
    rfl

/-- C16, at an info response whose extra-data section is the flags byte 0x80 and one more
byte: `unpackEDF` returns `ErrShort`, but `query` does not test that error, so the info
phase returns no error, with port() = "0" and online = true. The same holds when the flags
byte itself is missing. -/
theorem infoPhase_ignores_short_extra :
    unpackEDF [0x80, 0x01] 0 [] = some ([1], 0, [], some ReflexError.ErrShort) ∧
    (infoPhase rserver0 (infoHead ++ [0x80, 0x01])).map
        (fun r => (r.1.ronline, r.1.rport, r.2)) = some (true, str "0", none) ∧
    unpackEDF [] 0 [] = some ([], 0, [], some ReflexError.shortExtraData) ∧
    (infoPhase rserver0 infoHead).map
        (fun r => (r.1.ronline, r.1.rport, r.2)) = some (true, str "0", none) :=
  ⟨rfl, rfl, rfl, rfl⟩

/-- C17: a player response made of four bytes, the sentinel 0x44, a count n and n complete
records (an index byte, an ASCII name without zero byte and its zero terminator, the four
score bytes, the four duration bytes), whatever follows them, decodes without error to
exactly n ClientInfo in wire order, each with the name of its record and the signed 32-bit
little-endian value of its score bytes; FF FF FF FF gives -1. A response of fewer than six
bytes gives `ErrShortPlayer`, and one whose byte 4 is not 0x44 gives `ErrBad`. -/
theorem unpackclients_decodes_records (hdr : Str) (records : List PlayerRecord)
    (trailing : Str) (hh : hdr.length = 4) (hwf : ∀ r ∈ records, r.wellFormed) :
    unpackclients (hdr ++ 0x44 :: records.length :: (encodeRecords records ++ trailing))
      = some (records.map PlayerRecord.client, none) ∧
    (records.map PlayerRecord.client).length = records.length ∧
    specInt32LE 255 255 255 255 = -1 ∧
    (∀ b : Str, b.length < 6 → unpackclients b = some ([], some ReflexError.ErrShortPlayer)) ∧
    (∀ b : Str, 6 ≤ b.length → b.getD 4 0 ≠ 0x44 →
      unpackclients b = some ([], some ReflexError.ErrBad)) := by
  refine ⟨?_, List.length_map _ _, by decide, ?_, ?_⟩
  · match hdr, hh with
    | [h0, h1, h2, h3], _ =>
      unfold unpackclients
      rw [if_neg (by simp), if_neg (by simp)]
      simp only [List.cons_append, List.nil_append, List.drop_succ_cons, List.drop_zero,
        List.getD_cons_succ, List.getD_cons_zero]
      rw [unpackclientsLoop_records records trailing [] hwf]
      rfl
  · intro b hb
    unfold unpackclients
    rw [if_pos hb]
  · intro b hb h4
    unfold unpackclients
    rw [if_neg (by omega), if_pos h4]

/-- C17 at the response `playersReply`: Bob with score -1, then Al with score 10. -/
theorem unpackclients_decodes_records_witness :
    unpackclients playersReply
      = some ([Client.mk (str "Bob") (-1), Client.mk (str "Al") 10], none) := by
  have h := (unpackclients_decodes_records [255, 255, 255, 255] playersRecords [9]
    (by decide) (by
      intro r hr
      simp only [playersRecords, List.mem_cons, List.mem_singleton, List.mem_nil_iff,
        or_false] at hr
      rcases hr with rfl | rfl <;> (unfold PlayerRecord.wellFormed; decide))).1
  exact h

/-- C18: when `unpack` returns without error, what it returns is the input buffer without
its first bytes, as many as the declared widths of the fields sum to in format order: 1 for
b, 2 for S, 4 for l and for f, 8 for L, and for s the bytes of the string up to its zero
byte plus that terminator; these bytes are inside the buffer. When `unpack` returns
`ErrShort`, what it returns is the buffer without the fields before the failing one: no
byte of the failing field or after it is consumed. For an ASCII string the width is the
length of the decoded string plus one. -/
theorem unpack_consumes_declared_widths (format b rest : Str) (a a1 : List Arg)
    (h : unpack format b a = some (rest, a1, none)) :
    rest = b.drop (specConsumed format b) ∧ specConsumed format b ≤ b.length ∧
    (∀ buf : Str, specWidth 98 buf = 1 ∧ specWidth 83 buf = 2 ∧ specWidth 108 buf = 4 ∧
      specWidth 102 buf = 4 ∧ specWidth 76 buf = 8 ∧
      specWidth 115 buf = (buf.takeWhile fun y => y != 0).length + 1) ∧
    (∀ (b2 rest2 : Str) (a2 a3 : List Arg),
      unpack format b2 a2 = some (rest2, a3, some ReflexError.ErrShort) →
      ∃ k, k < format.length ∧ rest2 = b2.drop (specConsumed (format.take k) b2) ∧
        specConsumed (format.take k) b2 ≤ b2.length) ∧
    (∀ (name tail s : Str), (∀ c ∈ name, 1 ≤ c ∧ c < 128) →
      unpack (str "s") (name ++ 0 :: tail) [Arg.string s]
        = some (tail, [Arg.string name], none) ∧
      specWidth 115 (name ++ 0 :: tail) = name.length + 1) := by
  have hsplit : ∀ (b2 : Str) (a2 : List Arg) (r : Str × List Arg × Option ReflexError),
      unpack format b2 a2 = some r → r.2.2 ≠ some ReflexError.badFormat →
      format.length = a2.length ∧ unpackLoop format b2 a2 = some r := by
    intro b2 a2 r hu hne
    unfold unpack at hu
    by_cases hl : format.length ≠ a2.length
    · rw [if_pos hl] at hu
      have := Option.some.inj hu
      subst this
      exact absurd rfl hne
    · rw [if_neg hl] at hu
      exact ⟨not_not.1 hl, hu⟩
  obtain ⟨hlen, hloop⟩ := hsplit b a _ h (by simp)
  obtain ⟨h1, h2⟩ := unpackLoop_ok format b rest a a1 hlen hloop
  refine ⟨h1, h2, fun buf => ⟨rfl, rfl, rfl, rfl, rfl, rfl⟩, ?_, ?_⟩
  · intro b2 rest2 a2 a3 hu
    obtain ⟨hlen2, hloop2⟩ := hsplit b2 a2 _ hu (by simp)
    exact unpackLoop_err format b2 rest2 a2 a3 _ hlen2 hloop2
  · intro name tail s hname
    have hnz : ∀ c ∈ name, c ≠ 0 := fun c hc => by have := (hname c hc).1; omega
    have hasc : ∀ c ∈ name, c < 128 := fun c hc => (hname c hc).2
    refine ⟨?_, ?_⟩
    · have e : str "s" = [115] := rfl
      unfold unpack
      rw [e, if_neg (by simp)]
      simp only [unpackLoop, unpackField_string name tail s hnz, decodeBytes_ascii name hasc]
    · unfold specWidth
      rw [if_pos rfl, takeWhile_before_zero name tail hnz]

/-- C18 at the format "bslf" on one player record followed by the byte 9. -/
theorem unpack_consumes_declared_widths_witness :
    ([9] : Str) = (1 :: str "Bob" ++ [0, 10, 0, 0, 0, 0, 0, 128, 63, 9]).drop
        (specConsumed (str "bslf") (1 :: str "Bob" ++ [0, 10, 0, 0, 0, 0, 0, 128, 63, 9])) ∧
    specConsumed (str "bslf") (1 :: str "Bob" ++ [0, 10, 0, 0, 0, 0, 0, 128, 63, 9]) = 13 := by
  have h := unpack_consumes_declared_widths (str "bslf")
    (1 :: str "Bob" ++ [0, 10, 0, 0, 0, 0, 0, 128, 63, 9]) [9]
    [Arg.byte 0, Arg.string [], Arg.int32 0, Arg.float32 0]
    [Arg.byte 1, Arg.string (str "Bob"), Arg.int32 10, Arg.float32 1065353216] (by decide)
  exact ⟨h.1, by decide⟩

/-- C19, at an info response of three bytes, and at every info response of fewer than six
bytes: the test before the decode is on the length of the buffer, which is 8192, so no
error is returned, and the slice `r[6:n]` with `n < 6` is out of range: the info phase, and
`query` with it, panics. -/
theorem infoPhase_short_response_panics (srv : ReflexServer) :
    infoPhase srv [255, 255, 255] = none ∧
    (∀ info : Str, info.length < 6 → infoPhase srv info = none) ∧
    (∀ info chal players : Str, info.length < 6 →
      ReflexServer.query srv info chal players = none) := by
  have hgen : ∀ info : Str, info.length < 6 → infoPhase srv info = none := by
    intro info h
    unfold infoPhase
    simp only
    rw [if_neg (by decide), if_pos (by rw [List.length_take]; omega)]
  refine ⟨hgen _ (by decide), hgen, ?_⟩
  intro info chal players h
  unfold ReflexServer.query
  rw [hgen info h]

/-- C20, at two private messages from evil!u@h on an empty membership. The CTCP query
"\x01353 @evil \x01" becomes the command "353 @evil ", whose first three bytes the router
takes for the numeric 353, so the text is processed as a names reply and evil is an
operator afterwards. The CTCP query "\x01MODE\x01" sent with the parameters
#chan +o evil becomes the command "mode", so the parameters are processed as a mode change
and evil is an operator afterwards. -/
theorem handle_privmsg_adds_operator (e : Env) :
    (parseLine e (str ":evil!u@h PRIVMSG #chan :\x01353 @evil \x01")).map (fun ev => ev.cmd)
      = some (str "privmsg") ∧
    (readLine e conn0 (str ":evil!u@h PRIVMSG #chan :\x01353 @evil \x01")).map
        (fun c => c.operators) = some [str "evil"] ∧
    (parseLine e (str ":evil!u@h PRIVMSG #chan +o evil :\x01MODE\x01")).map (fun ev => ev.cmd)
      = some (str "privmsg") ∧
    (readLine e conn0 (str ":evil!u@h PRIVMSG #chan +o evil :\x01MODE\x01")).map
        (fun c => c.operators) = some [str "evil"] :=
  ⟨rfl, rfl, rfl, rfl⟩

/-- C21, at the command "!motd hello" that alice!u@h sends to #chan after start-up. The
command motd is operator-only and alice is in the operator map, yet the command is not run
and alice gets the permission error: the dispatch hands `ev.args[0]`, the channel, to
`isopped` where the sender belongs, and `splituserstring` makes the empty nick of it. With
the empty string in the operator map the command is run for alice, who is no operator. -/
theorem dispatch_denies_operator (e : Env) :
    parseLine e (str ":alice!u@h PRIVMSG #chan :!motd hello") = some motdCommand ∧
    handle e conn0 motdCommand = some (conn0.send (Send.event motdCommand)) ∧
    (botcmds (str "motd")).map (fun f => f.op) = some true ∧
    isopped [str "alice"] motdCommand.src (str "#chan") = some true ∧
    dispatch e false [str "alice"] motdCommand
      = some (Outcome.denied (str "NOTICE alice :" ++ (Violet ++ ErrPermission))) ∧
    isopped [[]] motdCommand.src (str "#chan") = some false ∧
    dispatch e false [[]] motdCommand
      = some (Outcome.ran (str "setmotd") (str "#chan") (str "alice!u@h") [str "hello"] true) :=
  ⟨rfl, rfl, rfl, rfl, rfl, rfl, rfl⟩

/-- C22, at the buffer E9 00 07: the first zero byte is at index 1 and the byte before it is
0xE9, yet the string that `unpack` yields is C3 A9, the UTF-8 form of the code point 0xE9,
because `string(b[k])` converts a byte as a code point. A name sent as the UTF-8 bytes
C3 A9 comes back as C3 83 C2 A9. The remainder is b[k+1..] in both cases. -/
theorem unpack_string_reencodes_high_bytes :
    unpack (str "s") [0xE9, 0, 7] [Arg.string []]
      = some ([7], [Arg.string [0xC3, 0xA9]], none) ∧
    unpack (str "s") [0xC3, 0xA9, 0, 7] [Arg.string []]
      = some ([7], [Arg.string [0xC3, 0x83, 0xC2, 0xA9]], none) :=
  ⟨rfl, rfl⟩

end Pkup
